import Mathlib

/-!
Verification of the driftline mission pipeline against its specification.

The definitions below are a shallow embedding of the two core services of the
repository:

* `services/results-processor/processor.py` (class `ResultsProcessor`): the
  numeric pipeline that turns final particle positions into a normalized
  density grid, probability thresholds, search-area regions, a centroid and
  trajectory GeoJSON; and the effect of `process_results` on the mission
  store and artifact store.
* `services/drift-worker/worker.py` (class `DriftWorker`): the job loop,
  `_update_mission_status`, `process_job`, upload and enqueue steps.

Conventions of the embedding:

* Python floats are modelled as exact rationals (`ℚ`); `NaN` positions are
  modelled as `none` in `Option ℚ`.
* numpy arrays are lists (grids are lists of rows); out-of-range reads use
  the default `0`, and all grids built by the pipeline are rectangular.
* The weights of scipy's `gaussian_filter` kernel are irrational floats
  (`exp`), so the smoothing kernel is a parameter `w : List ℚ`; the filter
  itself (separable correlation, `reflect` boundary mode, centered odd
  kernel) is modelled faithfully.  Theorems assume only that the kernel
  entries are positive, which the real Gaussian kernel satisfies.
* Infrastructure (Redis, Postgres, S3) is modelled as reliable state; an
  exception raised by the simulation engine or the upload call is an input
  of the model, matching the spec's scope.
-/

namespace Driftline

/-! ## Basic list helpers -/

/-- Running cumulative sums, modelling `np.cumsum`: entry `i` is the sum of
the first `i + 1` elements. -/
def cumsum (l : List ℚ) : List ℚ :=
  (List.range l.length).map (fun i => (l.take (i + 1)).sum)

/-- Descending sort, modelling `np.sort(flat_density)[::-1]`
(processor.py line 153): sort ascending, then reverse. -/
def sortDesc (l : List ℚ) : List ℚ :=
  (l.insertionSort (· ≤ ·)).reverse

/-- Probability mass held by the cells whose density is at or above `t`
(the mask `density >= threshold` of processor.py line 175, summed). -/
def massGE (flat : List ℚ) (t : ℚ) : ℚ :=
  (flat.filter (fun v => t ≤ v)).sum

/-- Number of cells whose density is at or above `t`. -/
def countGE (flat : List ℚ) (t : ℚ) : ℕ :=
  (flat.filter (fun v => t ≤ v)).length

/-- Threshold selection of processor.py lines 152–158:

    sorted_density = np.sort(flat_density)[::-1]
    cumsum = np.cumsum(sorted_density)
    threshold_P = sorted_density[np.where(cumsum >= P)[0][0]]

`none` models the `IndexError` raised when no cumulative sum reaches `p`. -/
def threshold (flat : List ℚ) (p : ℚ) : Option ℚ :=
  let sorted := sortDesc flat
  let cs := cumsum sorted
  match cs.findIdx? (fun c => p ≤ c) with
  | some i => sorted[i]?
  | none => none

/-- The spec's literal words for the threshold rule: "the smallest
cell-density value such that the set of cells with density at or above it
accounts for at least P% of total probability mass", read over the values
occurring in the grid.  Kept separate from `threshold` (the code's rule) so
the two can be compared. -/
def specSmallestThreshold (flat : List ℚ) (p : ℚ) : Option ℚ :=
  (flat.filter (fun v => p ≤ massGE flat v)).min?

/-! ### Facts about `cumsum` -/

theorem cumsum_length (l : List ℚ) : (cumsum l).length = l.length := by
  simp [cumsum]

theorem cumsum_getElem (l : List ℚ) (i : ℕ) (h : i < (cumsum l).length) :
    (cumsum l)[i] = (l.take (i + 1)).sum := by
  simp [cumsum]

/-! ### Facts about `sortDesc` -/

theorem sortDesc_perm (l : List ℚ) : List.Perm (sortDesc l) l :=
  (List.reverse_perm _).trans (List.perm_insertionSort _ l)

theorem sortDesc_sorted (l : List ℚ) : (sortDesc l).Sorted (· ≥ ·) := by
  have h := List.sorted_insertionSort (· ≤ ·) l
  simpa [sortDesc, List.Sorted, List.pairwise_reverse] using h

theorem sortDesc_sum (l : List ℚ) : (sortDesc l).sum = l.sum :=
  (sortDesc_perm l).sum_eq

theorem sortDesc_length (l : List ℚ) : (sortDesc l).length = l.length :=
  (sortDesc_perm l).length_eq

/-- In a descending-sorted list, later entries are at most earlier ones. -/
theorem sorted_desc_le {s : List ℚ} (hs : s.Sorted (· ≥ ·)) {i j : ℕ}
    (hij : i ≤ j) (hi : i < s.length) (hj : j < s.length) : s[j] ≤ s[i] := by
  rcases Nat.eq_or_lt_of_le hij with rfl | hlt
  · exact le_refl _
  · exact hs.rel_get_of_lt (a := ⟨i, hi⟩) (b := ⟨j, hj⟩) hlt

/-! ### The threshold specification -/

theorem massGE_congr_perm {l₁ l₂ : List ℚ} (h : List.Perm l₁ l₂) (t : ℚ) :
    massGE l₁ t = massGE l₂ t :=
  (h.filter _).sum_eq

theorem massGE_append (l₁ l₂ : List ℚ) (t : ℚ) :
    massGE (l₁ ++ l₂) t = massGE l₁ t + massGE l₂ t := by
  simp [massGE, List.filter_append]

/-- Mass at or above a threshold is antitone in the threshold. -/
theorem massGE_antitone {flat : List ℚ} (h0 : ∀ v ∈ flat, 0 ≤ v) {t t' : ℚ}
    (ht : t ≤ t') : massGE flat t' ≤ massGE flat t := by
  apply List.Sublist.sum_le_sum
  · exact List.monotone_filter_right flat
      (fun _ hv => decide_eq_true (le_trans ht (of_decide_eq_true hv)))
  · intro a ha
    exact h0 a (List.mem_of_mem_filter ha)

/-- Cell count at or above a threshold is antitone in the threshold. -/
theorem countGE_antitone (flat : List ℚ) {t t' : ℚ} (ht : t ≤ t') :
    countGE flat t' ≤ countGE flat t :=
  List.Sublist.length_le
    (List.monotone_filter_right flat
      (fun _ hv => decide_eq_true (le_trans ht (of_decide_eq_true hv))))

/-- Core description of the code's threshold rule, proved over any list of
nonnegative cell densities whose total reaches `p`: the selected value is a
cell value, the mask at or above it holds mass at least `p`, and no strictly
larger cell value does. -/
theorem threshold_spec {flat : List ℚ} {p : ℚ}
    (h0 : ∀ v ∈ flat, 0 ≤ v) (hp : 0 < p) (hs : p ≤ flat.sum) :
    ∃ t, threshold flat p = some t ∧ t ∈ flat ∧ p ≤ massGE flat t ∧
      ∀ v ∈ flat, t < v → massGE flat v < p := by
  classical
  set s := sortDesc flat with hsdef
  have hperm : List.Perm s flat := sortDesc_perm flat
  have hsorted : s.Sorted (· ≥ ·) := sortDesc_sorted flat
  have hsum : s.sum = flat.sum := sortDesc_sum flat
  have h0s : ∀ v ∈ s, 0 ≤ v := fun v hv => h0 v (hperm.mem_iff.mp hv)
  have hsne : s ≠ [] := by
    intro hnil
    rw [hnil] at hsum
    simp at hsum
    rw [← hsum] at hs
    exact absurd (lt_of_lt_of_le hp hs) (lt_irrefl 0)
  have hslen : 0 < s.length := List.length_pos.mpr hsne
  -- the last cumulative sum is the full sum, which reaches p
  have hlastmem : s.sum ∈ cumsum s := by
    have hlt : s.length - 1 < s.length := Nat.sub_lt hslen Nat.one_pos
    have hmem : s.length - 1 ∈ List.range s.length := List.mem_range.mpr hlt
    have h1 : (s.take (s.length - 1 + 1)).sum ∈ cumsum s := List.mem_map_of_mem _ hmem
    rwa [Nat.sub_add_cancel (Nat.one_le_iff_ne_zero.mpr (Nat.pos_iff_ne_zero.mp hslen)),
      List.take_length] at h1
  have hfind : ∃ i, (cumsum s).findIdx? (fun c => p ≤ c) = some i := by
    have hany : (cumsum s).any (fun c => p ≤ c) = true :=
      List.any_eq_true.mpr ⟨s.sum, hlastmem, decide_eq_true (hsum ▸ hs)⟩
    have h2 := @List.findIdx?_isSome ℚ (cumsum s) (fun c => p ≤ c)
    rw [hany] at h2
    exact Option.isSome_iff_exists.mp h2
  obtain ⟨i, hi⟩ := hfind
  obtain ⟨hilen, hpi, hbefore⟩ := List.findIdx?_eq_some_iff_getElem.mp hi
  have hilen' : i < s.length := by rwa [cumsum_length] at hilen
  have hcsi : p ≤ (s.take (i + 1)).sum := by
    have h3 := cumsum_getElem s i hilen
    rw [h3] at hpi
    exact of_decide_eq_true hpi
  refine ⟨s[i], ?_, ?_, ?_, ?_⟩
  · unfold threshold
    simp only [← hsdef, hi]
    exact List.getElem?_eq_getElem hilen'
  · exact hperm.mem_iff.mp (s.getElem_mem hilen')
  · -- mass at or above s[i] is at least the (i+1)-prefix sum
    rw [← massGE_congr_perm hperm]
    have htake : (s.take (i + 1)).filter (fun v => decide (s[i] ≤ v)) = s.take (i + 1) := by
      apply List.filter_eq_self.mpr
      intro a ha
      obtain ⟨j, hj, hji⟩ := List.mem_iff_getElem.mp ha
      have hjlen : j < i + 1 := by
        have := hj
        rw [List.length_take] at this
        exact lt_of_lt_of_le this (min_le_left _ _)
      have hjs : j < s.length := lt_of_le_of_lt (Nat.lt_succ_iff.mp hjlen) hilen'
      have hget : (s.take (i + 1))[j] = s[j] := List.getElem_take s
      rw [← hji, hget]
      exact decide_eq_true
        (sorted_desc_le hsorted (Nat.lt_succ_iff.mp hjlen) hjs hilen')
    have hdropnn : 0 ≤ massGE (s.drop (i + 1)) s[i] := by
      apply List.sum_nonneg
      intro a ha
      exact h0s a (List.mem_of_mem_drop (List.mem_of_mem_filter ha))
    have hsplit := massGE_append (s.take (i + 1)) (s.drop (i + 1)) s[i]
    rw [List.take_append_drop] at hsplit
    have htakemass : massGE (s.take (i + 1)) s[i] = (s.take (i + 1)).sum := by
      unfold massGE
      rw [htake]
    rw [hsplit, htakemass]
    linarith
  · intro v hv hlt
    rw [← massGE_congr_perm hperm]
    have hdropnil : (s.drop i).filter (fun x => decide (v ≤ x)) = [] := by
      apply List.filter_eq_nil_iff.mpr
      intro a ha
      obtain ⟨k, hk, hka⟩ := List.mem_iff_getElem.mp ha
      have hik : i + k < s.length := by
        have := hk
        rw [List.length_drop] at this
        omega
      have hget : (s.drop i)[k] = s[i + k] := List.getElem_drop s
      have hle : s[i + k] ≤ s[i] :=
        sorted_desc_le hsorted (Nat.le_add_right i k) hilen' hik
      rw [← hka, hget]
      simp only [decide_eq_true_eq]
      intro hcon
      exact absurd (le_trans hcon hle) (not_le.mpr hlt)
    have hsplit2 := massGE_append (s.take i) (s.drop i) v
    rw [List.take_append_drop] at hsplit2
    have hdropmass : massGE (s.drop i) v = 0 := by
      unfold massGE
      rw [hdropnil]
      rfl
    have hle2 : ((s.take i).filter (fun x => decide (v ≤ x))).sum ≤ (s.take i).sum := by
      apply List.Sublist.sum_le_sum (List.filter_sublist _)
      intro a ha
      exact h0s a (List.mem_of_mem_take ha)
    have hlt2 : (s.take i).sum < p := by
      cases i with
      | zero => simpa using hp
      | succ j =>
        have hji : j < j + 1 := Nat.lt_succ_self j
        have hjlen : j < (cumsum s).length := lt_trans hji hilen
        have hnot := hbefore j hji
        rw [cumsum_getElem s j hjlen] at hnot
        simp only [decide_eq_true_eq] at hnot
        exact lt_of_not_le hnot
    have : massGE (s.take i) v ≤ (s.take i).sum := hle2
    rw [hsplit2, hdropmass]
    linarith

/-- With a higher mass target the selected threshold value can only drop:
the code's rule picks a lower (or equal) density cut for 90% than for 50%. -/
theorem threshold_mono {flat : List ℚ} {p q : ℚ} (h0 : ∀ v ∈ flat, 0 ≤ v)
    (hp : 0 < p) (hpq : p ≤ q) (hq : q ≤ flat.sum) :
    ∃ tp tq, threshold flat p = some tp ∧ threshold flat q = some tq ∧ tq ≤ tp := by
  obtain ⟨tp, hTp, _, _, hmaxp⟩ := threshold_spec h0 hp (le_trans hpq hq)
  obtain ⟨tq, hTq, hmemq, hmassq, _⟩ := threshold_spec h0 (lt_of_lt_of_le hp hpq) hq
  refine ⟨tp, tq, hTp, hTq, ?_⟩
  by_contra hcon
  push_neg at hcon
  have hlt := hmaxp tq hmemq hcon
  linarith

/-! ## Search-area regions (processor.py `_create_search_area_polygon`)

Lines 171–215: the mask `density >= threshold` is labeled into connected
components (`scipy.ndimage.label`, default cross-shaped 4-connectivity,
labels assigned in raster-scan order), component sizes are computed
(`ndimage.sum` over the mask = cell counts), the largest component is
selected (`np.argmax`, which returns the FIRST index attaining the
maximum), and its boundary is traced into the polygon by
`skimage.measure.find_contours(largest_mask, 0.5)`.  Marching squares
emits a contour segment exactly in those 2x2 pixel blocks whose corners
straddle the 0.5 level, i.e. blocks holding both a masked and an
unmasked pixel; when no such block exists (fewer than two rows or
columns, or a uniform mask) `find_contours` returns `[]` and the
function returns `None` (lines 191-194).  The region of cells of the
selected component determines the polygon, so the mass enclosed by the
polygon is the mass of that region and its area in grid cells is the
region's cell count; the coordinates of the traced ring are not
modelled, only its existence. -/

/-- Entry read of a grid (list of rows), defaulting to 0 out of range. -/
def getEntry (g : List (List ℚ)) (i j : ℕ) : ℚ := (g.getD i []).getD j 0

/-- Number of columns of a grid (rows are uniform for pipeline grids). -/
def rowLen (g : List (List ℚ)) : ℕ := (g.headD []).length

/-- Cells of the mask `density >= threshold` in raster-scan order. -/
def maskCells (g : List (List ℚ)) (t : ℚ) : List (ℕ × ℕ) :=
  (List.range g.length).flatMap (fun i =>
    ((List.range (g.getD i []).length).filter (fun j => t ≤ getEntry g i j)).map
      (fun j => (i, j)))

/-- Cross-shaped (4-)connectivity, the default structuring element of
`scipy.ndimage.label` in 2-D. -/
def adjacent (a b : ℕ × ℕ) : Bool :=
  (a.1 == b.1 && (a.2 + 1 == b.2 || b.2 + 1 == a.2)) ||
  (a.2 == b.2 && (a.1 + 1 == b.1 || b.1 + 1 == a.1))

/-- One step of flood fill: add the mask cells adjacent to the component. -/
def grow (cells comp : List (ℕ × ℕ)) : List (ℕ × ℕ) :=
  comp ++ cells.filter (fun c => !comp.contains c && comp.any (fun d => adjacent c d))

/-- Iterated flood fill. -/
def growN : ℕ → List (ℕ × ℕ) → List (ℕ × ℕ) → List (ℕ × ℕ)
  | 0, _, comp => comp
  | n + 1, cells, comp => growN n cells (grow cells comp)

/-- The connected component of `seed` within `cells` (flood fill; running
`cells.length` steps reaches the fixed point). -/
def componentOf (cells : List (ℕ × ℕ)) (seed : ℕ × ℕ) : List (ℕ × ℕ) :=
  growN cells.length cells [seed]

/-- Components in raster order of their first cell, as `ndimage.label`
assigns labels 1..n. -/
def componentsAux : ℕ → List (ℕ × ℕ) → List (ℕ × ℕ) → List (List (ℕ × ℕ))
  | 0, _, _ => []
  | _ + 1, _, [] => []
  | n + 1, cells, c :: rest =>
      let comp := componentOf cells c
      comp :: componentsAux n cells (rest.filter (fun x => !comp.contains x))

/-- Connected components of a cell set. -/
def components (cells : List (ℕ × ℕ)) : List (List (ℕ × ℕ)) :=
  componentsAux cells.length cells cells

/-- First index attaining the maximum, as `np.argmax` returns. -/
def argmaxIdx (l : List ℕ) : ℕ := l.findIdx (fun x => x == l.foldr max 0)

/-- Existence of a marching-squares contour of
`skimage.measure.find_contours(region_mask, 0.5)` on a `rows` x `cols`
array: some 2x2 block of adjacent pixels holds both a masked and an
unmasked pixel (arrays with fewer than two rows or columns have no such
block, and a uniform mask has no 0.5-crossing). -/
def hasContour (rows cols : ℕ) (region : List (ℕ × ℕ)) : Bool :=
  (List.range (rows - 1)).any (fun i => (List.range (cols - 1)).any (fun j =>
    let blk := [(i, j), (i, j + 1), (i + 1, j), (i + 1, j + 1)]
    blk.any (fun c => region.contains c) && blk.any (fun c => !region.contains c)))

/-- Region of cells whose boundary `_create_search_area_polygon` traces:
the largest connected component of the at-or-above-threshold mask (first
largest on ties); `None` when the mask is empty (`num_features == 0`,
lines 181-182) and also when `find_contours` yields no contour for the
largest component (`len(contours) == 0`, lines 191-194). -/
def searchAreaRegion (g : List (List ℚ)) (t : ℚ) : Option (List (ℕ × ℕ)) :=
  let cells := maskCells g t
  let comps := components cells
  if comps.isEmpty then none
  else
    let largest := comps.getD (argmaxIdx (comps.map List.length)) []
    if hasContour g.length (rowLen g) largest then some largest else none

/-- Probability mass enclosed by the polygon of a region. -/
def regionMass (g : List (List ℚ)) (region : List (ℕ × ℕ)) : ℚ :=
  (region.map (fun c => getEntry g c.1 c.2)).sum

/-! ## Claim C4 -/

/-- Claim C4, as stated, is false: on the normalized grid with cell
densities 3/10, 3/10, 3/10, 1/10 and P = 50, the code's rule
(sort descending, cumulative sum, first crossing) selects 3/10, while the
smallest cell-density value whose at-or-above mask holds at least half the
mass is 1/10 (the mask of every cell value holds the full mass 1). -/
theorem C4_counterexample :
    threshold [3/10, 3/10, 3/10, 1/10] (1/2) = some (3/10) ∧
    specSmallestThreshold [3/10, 3/10, 3/10, 1/10] (1/2) = some (1/10) ∧
    some ((3 : ℚ)/10) ≠ some ((1 : ℚ)/10) := by
  refine ⟨?_, ?_, by norm_num⟩
  · norm_num [threshold, sortDesc, cumsum, List.insertionSort, List.orderedInsert,
      List.range_succ, List.findIdx?]
  · norm_num [specSmallestThreshold, massGE, List.min?, List.filter]

/-- Claim C4 (amended): for every normalized density grid (nonnegative cell
densities summing to 1), the code's 50% and 90% thresholds each equal the
LARGEST cell-density value such that the cells at or above it account for
at least P% of total probability mass: the selected value is a cell value,
its at-or-above mask reaches the target mass, and the mask of any strictly
larger cell value does not. -/
theorem C4_threshold_is_largest_qualifying_value (flat : List ℚ)
    (h0 : ∀ v ∈ flat, 0 ≤ v) (hsum : flat.sum = 1) :
    (∃ t50, threshold flat (1/2) = some t50 ∧ t50 ∈ flat ∧
        1/2 ≤ massGE flat t50 ∧ ∀ v ∈ flat, t50 < v → massGE flat v < 1/2) ∧
    (∃ t90, threshold flat (9/10) = some t90 ∧ t90 ∈ flat ∧
        9/10 ≤ massGE flat t90 ∧ ∀ v ∈ flat, t90 < v → massGE flat v < 9/10) := by
  constructor
  · exact threshold_spec h0 (by norm_num) (by rw [hsum]; norm_num)
  · exact threshold_spec h0 (by norm_num) (by rw [hsum]; norm_num)

/-- Witness for `C4_threshold_is_largest_qualifying_value` at the concrete
grid [3/10, 3/10, 3/10, 1/10]. -/
theorem C4_witness :
    ((∀ v ∈ [(3 : ℚ)/10, 3/10, 3/10, 1/10], 0 ≤ v) ∧
      [(3 : ℚ)/10, 3/10, 3/10, 1/10].sum = 1) ∧
    ((∃ t50, threshold [(3 : ℚ)/10, 3/10, 3/10, 1/10] (1/2) = some t50 ∧
        t50 ∈ [(3 : ℚ)/10, 3/10, 3/10, 1/10] ∧
        1/2 ≤ massGE [(3 : ℚ)/10, 3/10, 3/10, 1/10] t50 ∧
        ∀ v ∈ [(3 : ℚ)/10, 3/10, 3/10, 1/10], t50 < v →
          massGE [(3 : ℚ)/10, 3/10, 3/10, 1/10] v < 1/2) ∧
    (∃ t90, threshold [(3 : ℚ)/10, 3/10, 3/10, 1/10] (9/10) = some t90 ∧
        t90 ∈ [(3 : ℚ)/10, 3/10, 3/10, 1/10] ∧
        9/10 ≤ massGE [(3 : ℚ)/10, 3/10, 3/10, 1/10] t90 ∧
        ∀ v ∈ [(3 : ℚ)/10, 3/10, 3/10, 1/10], t90 < v →
          massGE [(3 : ℚ)/10, 3/10, 3/10, 1/10] v < 9/10)) :=
  ⟨⟨by norm_num, by norm_num⟩,
    C4_threshold_is_largest_qualifying_value [(3 : ℚ)/10, 3/10, 3/10, 1/10]
      (by norm_num) (by norm_num)⟩

/-! ## Claim C5 -/

/-- A normalized 2×6 density grid on which the largest-connected-component
selection breaks polygon monotonicity (two rows, so marching squares
yields a contour ring for both selected components). -/
def c5Grid : List (List ℚ) :=
  [[26/100, 0, 6/100, 6/100, 6/100, 6/100],
   [26/100, 0, 6/100, 6/100, 6/100, 6/100]]

/-- Claim C5, as stated, is false.  On the normalized 2×6 grid with a
two-cell column of density 0.26 and an eight-cell block of density 0.06,
both polygons exist (each selected component has mask/background
crossings, so `find_contours` traces a ring): the 50% threshold is 0.26
and its polygon is the two-cell column (mass 0.52); the 90% threshold is
0.06 and its mask splits into that column (2 cells) and the block
(8 cells); the largest component is the block, holding mass 0.48 — the
90% polygon encloses LESS mass than the 50% polygon. -/
theorem C5_counterexample :
    (∀ v ∈ c5Grid.flatten, 0 ≤ v) ∧ c5Grid.flatten.sum = 1 ∧
    threshold c5Grid.flatten (1/2) = some (26/100) ∧
    threshold c5Grid.flatten (9/10) = some (6/100) ∧
    searchAreaRegion c5Grid (26/100) = some [(0,0),(1,0)] ∧
    searchAreaRegion c5Grid (6/100)
      = some [(0,2),(0,3),(1,2),(0,4),(1,3),(0,5),(1,4),(1,5)] ∧
    regionMass c5Grid [(0,2),(0,3),(1,2),(0,4),(1,3),(0,5),(1,4),(1,5)]
      < regionMass c5Grid [(0,0),(1,0)] := by
  refine ⟨by norm_num [c5Grid], by norm_num [c5Grid], ?_, ?_, ?_, ?_, ?_⟩
  · norm_num [threshold, sortDesc, cumsum, c5Grid, List.insertionSort,
      List.orderedInsert, List.range_succ, List.findIdx?,
      List.getElem_cons_succ, List.getElem_cons_zero]
  · norm_num [threshold, sortDesc, cumsum, c5Grid, List.insertionSort,
      List.orderedInsert, List.range_succ, List.findIdx?,
      List.getElem_cons_succ, List.getElem_cons_zero]
    rfl
  · have h : maskCells c5Grid (26/100) = [(0,0),(1,0)] := by
      norm_num [maskCells, getEntry, c5Grid, List.range_succ]
    rw [searchAreaRegion, h]
    decide
  · have h : maskCells c5Grid (6/100)
        = [(0,0),(0,2),(0,3),(0,4),(0,5),(1,0),(1,2),(1,3),(1,4),(1,5)] := by
      norm_num [maskCells, getEntry, c5Grid, List.range_succ]
    rw [searchAreaRegion, h]
    decide
  · norm_num [regionMass, getEntry, c5Grid]

/-- Claim C5 (amended): monotonicity holds at the threshold and mask level,
not for the selected largest components.  For every normalized density
grid, the 90% threshold is at most the 50% threshold, so the full mask of
cells at or above the 90% threshold holds at least as much probability
mass, and at least as many cells, as the 50% mask.  (The polygon traced
from the LARGEST CONNECTED COMPONENT of each mask can still enclose less
mass at 90% than at 50%, as `C5_counterexample` shows.) -/
theorem C5_mask_monotone (flat : List ℚ)
    (h0 : ∀ v ∈ flat, 0 ≤ v) (hsum : flat.sum = 1) :
    ∃ t50 t90, threshold flat (1/2) = some t50 ∧ threshold flat (9/10) = some t90 ∧
      t90 ≤ t50 ∧ massGE flat t50 ≤ massGE flat t90 ∧
      countGE flat t50 ≤ countGE flat t90 := by
  obtain ⟨t50, t90, h50, h90, hle⟩ :=
    threshold_mono h0 (p := 1/2) (q := 9/10) (by norm_num) (by norm_num)
      (by rw [hsum]; norm_num)
  exact ⟨t50, t90, h50, h90, hle, massGE_antitone h0 hle, countGE_antitone flat hle⟩

/-- Witness for `C5_mask_monotone` at the concrete grid [1/2, 1/2]. -/
theorem C5_witness :
    ((∀ v ∈ [(1 : ℚ)/2, 1/2], 0 ≤ v) ∧ [(1 : ℚ)/2, 1/2].sum = 1) ∧
    (∃ t50 t90, threshold [(1 : ℚ)/2, 1/2] (1/2) = some t50 ∧
      threshold [(1 : ℚ)/2, 1/2] (9/10) = some t90 ∧ t90 ≤ t50 ∧
      massGE [(1 : ℚ)/2, 1/2] t50 ≤ massGE [(1 : ℚ)/2, 1/2] t90 ∧
      countGE [(1 : ℚ)/2, 1/2] t50 ≤ countGE [(1 : ℚ)/2, 1/2] t90) :=
  ⟨⟨by norm_num, by norm_num⟩,
    C5_mask_monotone [(1 : ℚ)/2, 1/2] (by norm_num) (by norm_num)⟩

/-! ## Trajectory datasets

`TrajectoryDataset` (OpenDrift output): arrays `lon`, `lat` indexed by
`(time, trajectory)`; `NaN` marks a stranded/undefined position and is
modelled by `none`. -/

structure Dataset where
  lon : List (List (Option ℚ))
  lat : List (List (Option ℚ))
deriving DecidableEq

/-- Number of particles, `ds.dims['trajectory']` (the row width). -/
def numParticles (ds : Dataset) : ℕ := (ds.lon.headD []).length

/-- Number of time steps, `ds.dims['time']`. -/
def numTimesteps (ds : Dataset) : ℕ := ds.lon.length

/-- Final particle positions, `isel(time=-1)` (processor.py lines 120–121):
the last row of each coordinate array, paired per particle. -/
def finalPositions (ds : Dataset) : List (Option ℚ × Option ℚ) :=
  (ds.lon.getLastD []).zip (ds.lat.getLastD [])

/-- Valid final positions: the mask `~(isnan(lons) | isnan(lats))` of
processor.py line 124 keeps a particle only when both coordinates are
defined. -/
def validFinals (finals : List (Option ℚ × Option ℚ)) : List (ℚ × ℚ) :=
  finals.filterMap (fun p =>
    match p with
    | (some x, some y) => some (x, y)
    | _ => none)

/-- Stranded-particle count of `process_results` (processor.py lines
392–394): `np.isnan(final_lons).sum()` — it tests the LONGITUDE array
only. -/
def strandedCount (finals : List (Option ℚ × Option ℚ)) : ℕ :=
  (finals.filter (fun p => p.1.isNone)).length

/-! ## Claim C7 -/

/-- Claim C7, as stated, is false: a particle whose final latitude is NaN
but whose final longitude is defined is excluded from the valid positions
(the valid mask requires both coordinates) yet not counted as stranded
(the stranded count tests longitudes only).  With one such particle,
stranded (0) + valid (0) ≠ total (1). -/
theorem C7_counterexample :
    strandedCount [((some 0 : Option ℚ), (none : Option ℚ))] = 0 ∧
    (validFinals [((some 0 : Option ℚ), (none : Option ℚ))]).length = 0 ∧
    [((some 0 : Option ℚ), (none : Option ℚ))].length = 1 ∧
    (0 : ℕ) + 0 ≠ 1 := by
  refine ⟨rfl, rfl, rfl, by decide⟩

/-- Claim C7 (amended): whenever every particle with an undefined final
latitude also has an undefined final longitude (as OpenDrift stranding
produces), the stranded count plus the number of valid final positions
equals the total particle count. -/
theorem C7_stranded_plus_valid_eq_total (finals : List (Option ℚ × Option ℚ))
    (h : ∀ p ∈ finals, p.2 = none → p.1 = none) :
    strandedCount finals + (validFinals finals).length = finals.length := by
  induction finals with
  | nil => rfl
  | cons q rest ih =>
    have hrest : ∀ p ∈ rest, p.2 = none → p.1 = none :=
      fun p hp => h p (List.mem_cons_of_mem _ hp)
    have hq := h q (List.mem_cons_self q rest)
    have ih' := ih hrest
    obtain ⟨a, b⟩ := q
    match a, b with
    | none, _ =>
      simp only [strandedCount, validFinals, List.filter_cons, List.filterMap_cons] at ih' ⊢
      simp at ih' ⊢
      omega
    | some x, some y =>
      simp only [strandedCount, validFinals, List.filter_cons, List.filterMap_cons] at ih' ⊢
      simp at ih' ⊢
      omega
    | some x, none =>
      exact absurd (hq rfl) (by simp)

/-- Witness for `C7_stranded_plus_valid_eq_total` on a concrete dataset
with one surviving and one stranded particle. -/
theorem C7_witness :
    (∀ p ∈ [((some 0 : Option ℚ), (some 0 : Option ℚ)), (none, none)],
        p.2 = none → p.1 = none) ∧
    strandedCount [((some 0 : Option ℚ), (some 0 : Option ℚ)), (none, none)] +
      (validFinals [((some 0 : Option ℚ), (some 0 : Option ℚ)), (none, none)]).length =
      [((some 0 : Option ℚ), (some 0 : Option ℚ)), (none, none)].length :=
  ⟨by decide, C7_stranded_plus_valid_eq_total _ (by decide)⟩

/-! ## Claim C10: trajectory GeoJSON (`_generate_trajectory_geojson`) -/

/-- Sampled particle indices (processor.py lines 222–224):
`np.linspace(0, num_particles - 1, min(100, num_particles), dtype=int)`,
i.e. `min(100, n)` evenly spaced indices, truncated to integers (exact
rational spacing is modelled; `dtype=int` truncation is floor here since
all values are nonnegative). -/
def sampleIndices (n : ℕ) : List ℕ :=
  let s := min 100 n
  (List.range s).map (fun k => k * (n - 1) / (s - 1))

/-- The point list of one sampled trajectory (processor.py lines 227–238):
the particle's time series with time steps dropped unless both coordinates
are defined (`NaN`-gaps removed, not interpolated). -/
def trajCoords (ds : Dataset) (idx : ℕ) : List (ℚ × ℚ) :=
  validFinals ((ds.lon.map (fun row => row.getD idx none)).zip
    (ds.lat.map (fun row => row.getD idx none)))

/-- One GeoJSON `LineString` feature with its `trajectory_id` property. -/
structure Feature where
  trajectoryId : ℕ
  coords : List (ℚ × ℚ)
deriving DecidableEq

/-- The feature list of the trajectory `FeatureCollection` (processor.py
lines 217–257): one feature per sampled index, except that indices with no
valid position are skipped (`if not np.any(valid_mask): continue`). -/
def generateTrajectoryGeojson (ds : Dataset) : List Feature :=
  (sampleIndices (numParticles ds)).filterMap (fun idx =>
    let cs := trajCoords ds idx
    if cs.isEmpty then none else some ⟨idx, cs⟩)

theorem filterMap_skip_empty {α β : Type} (l : List α) (p : α → Bool) (f : α → β) :
    (l.filterMap (fun x => if p x then none else some (f x))) =
      (l.filter (fun x => !p x)).map f := by
  induction l with
  | nil => rfl
  | cons a rest ih =>
    by_cases h : p a = true
    · simp [List.filterMap_cons, List.filter_cons, h, ih]
    · simp only [Bool.not_eq_true] at h
      simp [List.filterMap_cons, List.filter_cons, h, ih]

/-- Claim C10: the trajectory `FeatureCollection` holds exactly one
`LineString` feature per sampled particle that has at least one valid
position (in sampling order, carrying that particle's index and its
NaN-free point list); all-NaN sampled particles are silently omitted, and
the feature count can be strictly below `min(100, particle count)` — shown
by a one-particle dataset whose only position is NaN. -/
theorem C10_features_are_sampled_valid_particles :
    (∀ ds : Dataset, generateTrajectoryGeojson ds =
      ((sampleIndices (numParticles ds)).filter
          (fun idx => !(trajCoords ds idx).isEmpty)).map
        (fun idx => ⟨idx, trajCoords ds idx⟩)) ∧
    (∃ ds : Dataset,
      (generateTrajectoryGeojson ds).length < min 100 (numParticles ds)) := by
  constructor
  · intro ds
    exact filterMap_skip_empty _ _ _
  · exact ⟨⟨[[none]], [[none]]⟩, by decide⟩

/-! ## Density pipeline (`_calculate_density_and_contours`, lines 117–169)

Bins, histogram, Gaussian smoothing, normalization and centroid.  Grids
are lists of rows; every grid construction below yields a rectangular
`r × c` grid built by `mkGrid`. -/

/-- Rectangular grid builder: row `i`, column `j` holds `f i j`. -/
def mkGrid (r c : ℕ) (f : ℕ → ℕ → ℚ) : List (List ℚ) :=
  (List.range r).map (fun i => (List.range c).map (f i))

/-- Minimum of a list, `np.min` (0 on the empty list, which numpy raises
on; the pipeline only calls it on nonempty lists). -/
def listMin : List ℚ → ℚ
  | [] => 0
  | x :: xs => xs.foldl min x

/-- Maximum of a list, `np.max`. -/
def listMax : List ℚ → ℚ
  | [] => 0
  | x :: xs => xs.foldl max x

/-- The `n` evenly spaced points of `np.linspace a b n`:
`a + (b - a) * i / (n - 1)`, endpoint included (exact in ℚ). -/
def linspace (a b : ℚ) (n : ℕ) : List ℚ :=
  (List.range n).map (fun (i : ℕ) => a + (b - a) * (i : ℚ) / ((n : ℚ) - 1))

/-- Bin index of `v` among `edges` under numpy histogram semantics:
bin `i` is `[edges[i], edges[i+1])`, the last bin also includes its right
edge, values outside `[first, last]` fall in no bin. -/
def binIndex (edges : List ℚ) (v : ℚ) : Option ℕ :=
  match edges.head?, edges.getLast? with
  | some lo, some hi =>
      if v < lo ∨ hi < v then none
      else some (min ((edges.takeWhile (fun e => e ≤ v)).length - 1) (edges.length - 2))
  | _, _ => none

/-- Bin-center array `(edges[:-1] + edges[1:]) / 2` (lines 145–146). -/
def centers (edges : List ℚ) : List ℚ :=
  (edges.zip edges.tail).map (fun p => (p.1 + p.2) / 2)

/-- np.histogram2d: cell `(i, j)` counts the points whose `x` falls in
x-bin `i` and whose `y` falls in y-bin `j` (returned as floats). -/
def histogram2d (xs ys : List ℚ) (xedges yedges : List ℚ) : List (List ℚ) :=
  mkGrid (xedges.length - 1) (yedges.length - 1) (fun i j =>
    (((xs.zip ys).filter (fun q =>
      binIndex xedges q.1 == some i && binIndex yedges q.2 == some j)).length : ℚ))

/-- Entry read of `density.T` (numpy transpose of a rectangular grid). -/
def transposeG (g : List (List ℚ)) : List (List ℚ) :=
  mkGrid (rowLen g) g.length (fun i j => getEntry g j i)

/-- Index folding of scipy's default `reflect` boundary mode
(`(d c b a | a b c d | d c b a)`), total via modular arithmetic. -/
def reflectIndex (n : ℕ) (i : ℤ) : ℕ :=
  if n = 0 then 0
  else
    let m := (i.emod (2 * n)).toNat
    if m < n then m else 2 * n - 1 - m

/-- Correlation along axis 0 (down the columns) with a centered odd kernel
`w`, `reflect` boundary mode — one pass of scipy's separable
`gaussian_filter`. -/
def correlateAxis0 (w : List ℚ) (g : List (List ℚ)) : List (List ℚ) :=
  mkGrid g.length (rowLen g) (fun i j =>
    ((List.range w.length).map (fun k =>
      w.getD k 0 * getEntry g (reflectIndex g.length ((i : ℤ) + k - (w.length / 2 : ℕ))) j)).sum)

/-- Correlation along axis 1 (across the rows). -/
def correlateAxis1 (w : List ℚ) (g : List (List ℚ)) : List (List ℚ) :=
  mkGrid g.length (rowLen g) (fun i j =>
    ((List.range w.length).map (fun k =>
      w.getD k 0 * getEntry g i (reflectIndex (rowLen g) ((j : ℤ) + k - (w.length / 2 : ℕ))))).sum)

/-- scipy `gaussian_filter` on a 2-D array: the 1-D kernel applied along
axis 0, then along axis 1. -/
def gaussianFilter (w : List ℚ) (g : List (List ℚ)) : List (List ℚ) :=
  correlateAxis1 w (correlateAxis0 w g)

/-- Total of all grid entries, `density.sum()`. -/
def gridSum (g : List (List ℚ)) : ℚ := (g.map List.sum).sum

/-- Normalization `density_smooth / density_smooth.sum()` (line 142). -/
def normalize (g : List (List ℚ)) : List (List ℚ) :=
  g.map (fun row => row.map (fun x => x / gridSum g))

/-- Per-column sums `density.sum(axis=0)` of a rectangular grid. -/
def sumAxis0 (g : List (List ℚ)) : List ℚ :=
  (List.range (rowLen g)).map (fun j =>
    ((List.range g.length).map (fun i => getEntry g i j)).sum)

/-- Per-row sums `density.sum(axis=1)` of a rectangular grid. -/
def sumAxis1 (g : List (List ℚ)) : List ℚ :=
  (List.range g.length).map (fun i =>
    ((List.range (rowLen g)).map (fun j => getEntry g i j)).sum)

/-- Weighted average `np.average(values, weights)`:
`Σ vᵢ wᵢ / Σ wᵢ` (numpy raises when the weights sum to zero). -/
def average (vals ws : List ℚ) : ℚ :=
  ((vals.zip ws).map (fun p => p.1 * p.2)).sum / ws.sum

/-- Output record of `_calculate_density_and_contours` (the `contours`
dict plus the returned grid and center arrays). -/
structure DensityResult where
  density : List (List ℚ)
  lonCenters : List ℚ
  latCenters : List ℚ
  centroidLon : ℚ
  centroidLat : ℚ
  t50 : ℚ
  t90 : ℚ

/-- Outcome of `_calculate_density_and_contours`: `noValid` models the
`return None, None, None, {}` for zero valid particles (line 128–130),
`indexError` the `IndexError` that `np.where(...)[0][0]` would raise if no
cumulative sum reached the target (unreachable for normalized grids). -/
inductive CalcResult
  | noValid
  | indexError
  | ok (res : DensityResult)

/-- Padded 100-edge bin array of line 133/134:
`np.linspace(coords.min() - 0.5, coords.max() + 0.5, 100)`. -/
def binsOf (coords : List ℚ) : List ℚ :=
  linspace (listMin coords - 1/2) (listMax coords + 1/2) 100

/-- Lines 136–142: 2-D histogram of the valid final positions over the
padded bins, transposed (`density.T`), Gaussian-smoothed and normalized to
total mass 1. -/
def densitySmoothOf (w : List ℚ) (valid : List (ℚ × ℚ)) : List (List ℚ) :=
  normalize (gaussianFilter w (transposeG
    (histogram2d (valid.map Prod.fst) (valid.map Prod.snd)
      (binsOf (valid.map Prod.fst)) (binsOf (valid.map Prod.snd)))))

/-- Lines 144–167: centroid (density-weighted average of the bin centers
along each axis) and 50%/90% thresholds over the normalized grid; an
unreachable threshold is the `IndexError` of `np.where(...)[0][0]`. -/
def contourPart (densitySmooth : List (List ℚ)) (lonCenters latCenters : List ℚ) :
    CalcResult :=
  match threshold densitySmooth.flatten (1/2), threshold densitySmooth.flatten (9/10) with
  | some t50, some t90 =>
      .ok { density := densitySmooth, lonCenters := lonCenters,
            latCenters := latCenters,
            centroidLon := average lonCenters (sumAxis0 densitySmooth),
            centroidLat := average latCenters (sumAxis1 densitySmooth),
            t50 := t50, t90 := t90 }
  | _, _ => .indexError

/-- Lines 117–169 of processor.py: final-position extraction is done by
the caller (`finals`); here the valid mask, the padded 100-edge bins, the
2-D histogram, Gaussian smoothing of `density.T`, normalization, the
weighted centroid and the 50%/90% thresholds. -/
def calculateDensityAndContours (w : List ℚ)
    (finals : List (Option ℚ × Option ℚ)) : CalcResult :=
  if ((validFinals finals).map Prod.fst).isEmpty then .noValid
  else
    contourPart (densitySmoothOf w (validFinals finals))
      (centers (binsOf ((validFinals finals).map Prod.fst)))
      (centers (binsOf ((validFinals finals).map Prod.snd)))

/-! ### Grid lemmas -/

theorem getD_map_range {α : Type} (r : ℕ) (g : ℕ → α) (d : α) (i : ℕ) :
    ((List.range r).map g).getD i d = if i < r then g i else d := by
  by_cases h : i < r
  · rw [List.getD_eq_getElem?_getD, List.getElem?_map, List.getElem?_range h]
    simp [h]
  · rw [List.getD_eq_getElem?_getD, List.getElem?_eq_none (by simpa using Nat.le_of_not_lt h)]
    simp [h]

theorem mkGrid_length (r c : ℕ) (f : ℕ → ℕ → ℚ) : (mkGrid r c f).length = r := by
  simp [mkGrid]

theorem rowLen_mkGrid {r : ℕ} (c : ℕ) (f : ℕ → ℕ → ℚ) (h : 0 < r) :
    rowLen (mkGrid r c f) = c := by
  obtain ⟨r', rfl⟩ := Nat.exists_eq_succ_of_ne_zero (Nat.pos_iff_ne_zero.mp h)
  simp [rowLen, mkGrid, List.range_succ_eq_map]

theorem getEntry_mkGrid (r c : ℕ) (f : ℕ → ℕ → ℚ) (i j : ℕ) :
    getEntry (mkGrid r c f) i j = if i < r ∧ j < c then f i j else 0 := by
  unfold getEntry mkGrid
  rw [getD_map_range]
  by_cases hi : i < r
  · simp only [hi, if_true]
    rw [getD_map_range]
    by_cases hj : j < c
    · simp [hi, hj]
    · simp [hi, hj]
  · simp [hi]

/-- All entries of a grid are nonnegative (reads out of range give 0). -/
def GridNonneg (g : List (List ℚ)) : Prop := ∀ i j, 0 ≤ getEntry g i j

/-- All rows have the common row length. -/
def RectGrid (g : List (List ℚ)) : Prop := ∀ row ∈ g, row.length = rowLen g

theorem mkGrid_rect (r c : ℕ) (f : ℕ → ℕ → ℚ) : RectGrid (mkGrid r c f) := by
  intro row hrow
  unfold mkGrid at hrow
  obtain ⟨i, hi, rfl⟩ := List.mem_map.mp hrow
  by_cases h : 0 < r
  · simp [rowLen_mkGrid c f h]
  · simp at hi
    omega

theorem getD_row_eq {g : List (List ℚ)} {i : ℕ} (hi : i < g.length) :
    g.getD i [] = g[i] := by
  rw [List.getD_eq_getElem?_getD, List.getElem?_eq_getElem hi]
  rfl

theorem gridNonneg_iff_rows {g : List (List ℚ)} :
    GridNonneg g → ∀ row ∈ g, ∀ x ∈ row, 0 ≤ x := by
  intro hg row hrow x hx
  obtain ⟨i, hi, hrowi⟩ := List.mem_iff_getElem.mp hrow
  obtain ⟨j, hj, hxj⟩ := List.mem_iff_getElem.mp hx
  have hx' : getEntry g i j = x := by
    unfold getEntry
    rw [getD_row_eq hi, hrowi, List.getD_eq_getElem?_getD, List.getElem?_eq_getElem hj]
    simp [hxj]
  rw [← hx']
  exact hg i j

theorem flatten_nonneg {g : List (List ℚ)} (hg : GridNonneg g) :
    ∀ x ∈ g.flatten, 0 ≤ x := by
  intro x hx
  obtain ⟨row, hrow, hxr⟩ := List.mem_flatten.mp hx
  exact gridNonneg_iff_rows hg row hrow x hxr

theorem gridSum_nonneg {g : List (List ℚ)} (hg : GridNonneg g) : 0 ≤ gridSum g := by
  apply List.sum_nonneg
  intro s hs
  obtain ⟨row, hrow, rfl⟩ := List.mem_map.mp hs
  exact List.sum_nonneg (fun x hx => gridNonneg_iff_rows hg row hrow x hx)

theorem flatten_sum (g : List (List ℚ)) : g.flatten.sum = gridSum g :=
  List.sum_flatten

/-- A list's sum written as a sum of indexed reads. -/
theorem sum_eq_sum_getD (l : List ℚ) :
    ((List.range l.length).map (fun j => l.getD j 0)).sum = l.sum := by
  induction l with
  | nil => rfl
  | cons x xs ih =>
    rw [List.length_cons, List.range_succ_eq_map, List.map_cons, List.map_map, List.sum_cons]
    have : ((List.range xs.length).map ((fun j => (x :: xs).getD j 0) ∘ Nat.succ)) =
        (List.range xs.length).map (fun j => xs.getD j 0) := by
      apply List.map_congr_left
      intro a _
      rfl
    rw [this, ih]
    rfl

theorem sum_map_div (l : List ℚ) (s : ℚ) :
    (l.map (fun x => x / s)).sum = l.sum / s := by
  induction l with
  | nil => simp
  | cons x xs ih => simp [ih, add_div]

/-- Swapping the order of a double sum over ranges. -/
theorem sum_range_swap (m n : ℕ) (f : ℕ → ℕ → ℚ) :
    ((List.range m).map (fun i => ((List.range n).map (f i)).sum)).sum =
      ((List.range n).map (fun j => ((List.range m).map (fun i => f i j)).sum)).sum := by
  induction m with
  | zero => simp
  | succ m ih =>
    rw [List.range_succ, List.map_append, List.sum_append, ih]
    simp only [List.map_cons, List.map_nil, List.sum_cons, List.sum_nil, add_zero]
    rw [← List.sum_map_add]
    congr 1
    apply List.map_congr_left
    intro j _
    rw [List.map_append, List.sum_append]
    simp

theorem getEntry_eq_of_lt {g : List (List ℚ)} {i : ℕ} (hi : i < g.length) (j : ℕ) :
    getEntry g i j = g[i].getD j 0 := by
  unfold getEntry
  rw [getD_row_eq hi]

/-- Row-major double-sum form of `gridSum` for rectangular grids. -/
theorem gridSum_eq_double {g : List (List ℚ)} (hrect : RectGrid g) :
    gridSum g = ((List.range g.length).map (fun i =>
      ((List.range (rowLen g)).map (fun j => getEntry g i j)).sum)).sum := by
  unfold gridSum
  have hlen : (g.map List.sum).length = g.length := by simp
  rw [← sum_eq_sum_getD (g.map List.sum), hlen]
  apply congrArg List.sum
  apply List.map_congr_left
  intro i hi
  have hi' : i < g.length := List.mem_range.mp hi
  rw [List.getD_eq_getElem?_getD, List.getElem?_map, List.getElem?_eq_getElem hi']
  simp only [Option.map_some', Option.getD_some]
  have hrl : rowLen g = g[i].length := (hrect g[i] (g.getElem_mem hi')).symm
  rw [hrl]
  rw [show (fun j => getEntry g i j) = (fun j => g[i].getD j 0) from
    funext (getEntry_eq_of_lt hi')]
  exact (sum_eq_sum_getD g[i]).symm

/-! ### Normalization lemmas -/

theorem normalize_length (g : List (List ℚ)) : (normalize g).length = g.length := by
  simp [normalize]

theorem rowLen_normalize (g : List (List ℚ)) : rowLen (normalize g) = rowLen g := by
  cases g with
  | nil => rfl
  | cons r t => simp [normalize, rowLen]

theorem rect_normalize {g : List (List ℚ)} (h : RectGrid g) : RectGrid (normalize g) := by
  intro row hrow
  obtain ⟨r, hr, rfl⟩ := List.mem_map.mp hrow
  rw [rowLen_normalize]
  simpa using h r hr

theorem getEntry_normalize (g : List (List ℚ)) (i j : ℕ) :
    getEntry (normalize g) i j = getEntry g i j / gridSum g := by
  unfold normalize getEntry
  by_cases hi : i < g.length
  · have h1 : (g.map (fun row => row.map (fun x => x / gridSum g))).getD i []
        = g[i].map (fun x => x / gridSum g) := by
      rw [List.getD_eq_getElem?_getD, List.getElem?_map, List.getElem?_eq_getElem hi]
      rfl
    rw [h1, getD_row_eq hi]
    by_cases hj : j < g[i].length
    · rw [List.getD_eq_getElem?_getD, List.getElem?_map, List.getElem?_eq_getElem hj]
      simp only [Option.map_some', Option.getD_some]
      rw [List.getD_eq_getElem?_getD, List.getElem?_eq_getElem hj]
      rfl
    · have hj' : g[i].length ≤ j := Nat.le_of_not_lt hj
      rw [List.getD_eq_getElem?_getD,
        List.getElem?_eq_none (by simpa using hj'),
        List.getD_eq_getElem?_getD, List.getElem?_eq_none hj']
      simp
  · have hle : g.length ≤ i := Nat.le_of_not_lt hi
    have h1 : (g.map (fun row => row.map (fun x => x / gridSum g))).getD i [] = [] := by
      rw [List.getD_eq_getElem?_getD, List.getElem?_eq_none (by simpa using hle)]
      rfl
    have h2 : g.getD i [] = [] := by
      rw [List.getD_eq_getElem?_getD, List.getElem?_eq_none hle]
      rfl
    rw [h1, h2]
    simp

theorem gridNonneg_normalize {g : List (List ℚ)} (hg : GridNonneg g) :
    GridNonneg (normalize g) := by
  intro i j
  rw [getEntry_normalize]
  exact div_nonneg (hg i j) (gridSum_nonneg hg)

theorem gridSum_normalize {g : List (List ℚ)} (h : gridSum g ≠ 0) :
    gridSum (normalize g) = 1 := by
  unfold gridSum normalize
  rw [List.map_map]
  have : (g.map (List.sum ∘ fun row => row.map (fun x => x / gridSum g)))
      = (g.map List.sum).map (fun x => x / gridSum g) := by
    rw [List.map_map]
    apply List.map_congr_left
    intro row _
    exact sum_map_div row (gridSum g)
  rw [this, sum_map_div]
  exact div_self h

/-! ### linspace, listMin/listMax, binIndex, centers, average -/

theorem linspace_length (a b : ℚ) (n : ℕ) : (linspace a b n).length = n := by
  simp [linspace]

theorem linspace_head? (a b : ℚ) {n : ℕ} (h : 0 < n) :
    (linspace a b n).head? = some a := by
  rw [List.head?_eq_getElem?]
  unfold linspace
  rw [List.getElem?_map, List.getElem?_range h]
  simp

theorem linspace_getLast? (a b : ℚ) {n : ℕ} (h : 2 ≤ n) :
    (linspace a b n).getLast? = some b := by
  rw [List.getLast?_eq_getElem?, linspace_length]
  unfold linspace
  have hlt : n - 1 < n := Nat.sub_lt (by omega) Nat.one_pos
  rw [List.getElem?_map, List.getElem?_range hlt]
  simp only [Option.map_some', Option.some.injEq]
  have hcast : ((n - 1 : ℕ) : ℚ) = (n : ℚ) - 1 := by
    push_cast [Nat.cast_sub (by omega : 1 ≤ n)]
    ring
  have hne : (n : ℚ) - 1 ≠ 0 := by
    have : (2 : ℚ) ≤ (n : ℚ) := by exact_mod_cast h
    linarith
  rw [hcast, mul_div_assoc, div_self hne]
  ring

theorem linspace_mem_bounds {a b : ℚ} (hab : a ≤ b) (n : ℕ) :
    ∀ x ∈ linspace a b n, a ≤ x ∧ x ≤ b := by
  intro x hx
  unfold linspace at hx
  obtain ⟨i, hi, rfl⟩ := List.mem_map.mp hx
  have hin : i < n := List.mem_range.mp hi
  rcases Nat.lt_or_ge n 2 with hn | hn
  · -- n = 1, so i = 0 and the value is a (division by zero gives 0)
    have : i = 0 := by omega
    subst this
    simp only [Nat.cast_zero, mul_zero, zero_div, add_zero]
    exact ⟨le_refl a, hab⟩
  · have hd : (0 : ℚ) < (n : ℚ) - 1 := by
      have : (2 : ℚ) ≤ (n : ℚ) := by exact_mod_cast hn
      linarith
    have hnum : 0 ≤ (b - a) * i := mul_nonneg (by linarith) (by positivity)
    constructor
    · have : 0 ≤ (b - a) * i / ((n : ℚ) - 1) := div_nonneg hnum (le_of_lt hd)
      linarith
    · have hic : (i : ℚ) ≤ (n : ℚ) - 1 := by
        have : (i : ℚ) + 1 ≤ (n : ℚ) := by exact_mod_cast Nat.succ_le_of_lt hin
        linarith
      have hmul : (b - a) * i ≤ (b - a) * ((n : ℚ) - 1) :=
        mul_le_mul_of_nonneg_left hic (by linarith)
      have : (b - a) * i / ((n : ℚ) - 1) ≤ b - a := by
        rw [div_le_iff₀ hd]
        calc (b - a) * i ≤ (b - a) * ((n : ℚ) - 1) := hmul
          _ = (b - a) * ((n : ℚ) - 1) := rfl
      linarith

theorem foldl_min_le_init : ∀ (xs : List ℚ) (a : ℚ), xs.foldl min a ≤ a := by
  intro xs
  induction xs with
  | nil => intro a; exact le_refl a
  | cons x t ih =>
    intro a
    calc (x :: t).foldl min a = t.foldl min (min a x) := rfl
      _ ≤ min a x := ih (min a x)
      _ ≤ a := min_le_left a x

theorem foldl_min_le_mem : ∀ (xs : List ℚ) (a : ℚ), ∀ x ∈ xs, xs.foldl min a ≤ x := by
  intro xs
  induction xs with
  | nil => intro a x hx; cases hx
  | cons y t ih =>
    intro a x hx
    rcases List.mem_cons.mp hx with rfl | hxt
    · calc (x :: t).foldl min a = t.foldl min (min a x) := rfl
        _ ≤ min a x := foldl_min_le_init t (min a x)
        _ ≤ x := min_le_right a x
    · exact ih (min a y) x hxt

theorem listMin_le {l : List ℚ} : ∀ x ∈ l, listMin l ≤ x := by
  intro x hx
  cases l with
  | nil => cases hx
  | cons y t =>
    rcases List.mem_cons.mp hx with rfl | hxt
    · exact foldl_min_le_init t x
    · exact foldl_min_le_mem t y x hxt

theorem le_foldl_max_init : ∀ (xs : List ℚ) (a : ℚ), a ≤ xs.foldl max a := by
  intro xs
  induction xs with
  | nil => intro a; exact le_refl a
  | cons x t ih =>
    intro a
    calc a ≤ max a x := le_max_left a x
      _ ≤ t.foldl max (max a x) := ih (max a x)
      _ = (x :: t).foldl max a := rfl

theorem le_foldl_max_mem : ∀ (xs : List ℚ) (a : ℚ), ∀ x ∈ xs, x ≤ xs.foldl max a := by
  intro xs
  induction xs with
  | nil => intro a x hx; cases hx
  | cons y t ih =>
    intro a x hx
    rcases List.mem_cons.mp hx with rfl | hxt
    · calc x ≤ max a x := le_max_right a x
        _ ≤ t.foldl max (max a x) := le_foldl_max_init t (max a x)
        _ = (x :: t).foldl max a := rfl
    · exact ih (max a y) x hxt

theorem le_listMax {l : List ℚ} : ∀ x ∈ l, x ≤ listMax l := by
  intro x hx
  cases l with
  | nil => cases hx
  | cons y t =>
    rcases List.mem_cons.mp hx with rfl | hxt
    · exact le_foldl_max_init t x
    · exact le_foldl_max_mem t y x hxt

theorem binIndex_some_of_bounds {edges : List ℚ} {v lo hi : ℚ}
    (hh : edges.head? = some lo) (hl : edges.getLast? = some hi)
    (h1 : lo ≤ v) (h2 : v ≤ hi) :
    binIndex edges v = some (min ((edges.takeWhile (fun e => e ≤ v)).length - 1)
      (edges.length - 2)) := by
  simp only [binIndex, hh, hl]
  rw [if_neg (show ¬(v < lo ∨ hi < v) by push_neg; exact ⟨h1, h2⟩)]

theorem centers_length (edges : List ℚ) : (centers edges).length = edges.length - 1 := by
  simp only [centers, List.length_map, List.length_zip, List.length_tail]
  exact Nat.min_eq_right (Nat.sub_le _ _)

theorem centers_mem_bounds {edges : List ℚ} {a b : ℚ}
    (h : ∀ x ∈ edges, a ≤ x ∧ x ≤ b) :
    ∀ x ∈ centers edges, a ≤ x ∧ x ≤ b := by
  intro x hx
  unfold centers at hx
  obtain ⟨p, hp, rfl⟩ := List.mem_map.mp hx
  obtain ⟨h1, h2⟩ := List.of_mem_zip hp
  have hb1 := h p.1 h1
  have hb2 := h p.2 (List.mem_of_mem_tail h2)
  constructor
  · linarith [hb1.1, hb2.1]
  · linarith [hb1.2, hb2.2]

theorem average_bounds {vals ws : List ℚ} {lo hi : ℚ}
    (hlen : vals.length = ws.length) (hws : ∀ x ∈ ws, 0 ≤ x)
    (hpos : 0 < ws.sum) (hlb : ∀ v ∈ vals, lo ≤ v) (hub : ∀ v ∈ vals, v ≤ hi) :
    lo ≤ average vals ws ∧ average vals ws ≤ hi := by
  unfold average
  have hsnd : (vals.zip ws).map Prod.snd = ws :=
    List.map_snd_zip vals ws (le_of_eq hlen.symm)
  have hupper : ((vals.zip ws).map (fun p => p.1 * p.2)).sum ≤ hi * ws.sum := by
    have hle : ((vals.zip ws).map (fun p => p.1 * p.2)).sum
        ≤ ((vals.zip ws).map (fun p => hi * p.2)).sum := by
      apply List.sum_le_sum
      intro p hp
      exact mul_le_mul_of_nonneg_right (hub p.1 (List.of_mem_zip hp).1)
        (hws p.2 (List.of_mem_zip hp).2)
    calc ((vals.zip ws).map (fun p => p.1 * p.2)).sum
        ≤ ((vals.zip ws).map (fun p => hi * p.2)).sum := hle
      _ = hi * ((vals.zip ws).map Prod.snd).sum := by
          rw [← List.sum_map_mul_left]
      _ = hi * ws.sum := by rw [hsnd]
  have hlower : lo * ws.sum ≤ ((vals.zip ws).map (fun p => p.1 * p.2)).sum := by
    have hle : ((vals.zip ws).map (fun p => lo * p.2)).sum
        ≤ ((vals.zip ws).map (fun p => p.1 * p.2)).sum := by
      apply List.sum_le_sum
      intro p hp
      exact mul_le_mul_of_nonneg_right (hlb p.1 (List.of_mem_zip hp).1)
        (hws p.2 (List.of_mem_zip hp).2)
    calc lo * ws.sum = lo * ((vals.zip ws).map Prod.snd).sum := by rw [hsnd]
      _ = ((vals.zip ws).map (fun p => lo * p.2)).sum := by
          rw [← List.sum_map_mul_left]
      _ ≤ ((vals.zip ws).map (fun p => p.1 * p.2)).sum := hle
  constructor
  · rw [le_div_iff₀ hpos]
    linarith
  · rw [div_le_iff₀ hpos]
    linarith

/-! ### Smoothing lemmas -/

theorem getD_nonneg {w : List ℚ} (hw : ∀ x ∈ w, 0 ≤ x) (k : ℕ) : 0 ≤ w.getD k 0 := by
  by_cases hk : k < w.length
  · rw [List.getD_eq_getElem?_getD, List.getElem?_eq_getElem hk]
    exact hw _ (w.getElem_mem hk)
  · rw [List.getD_eq_getElem?_getD, List.getElem?_eq_none (Nat.le_of_not_lt hk)]
    exact le_refl 0

theorem gridNonneg_mkGrid {r c : ℕ} {f : ℕ → ℕ → ℚ} (hf : ∀ i j, 0 ≤ f i j) :
    GridNonneg (mkGrid r c f) := by
  intro i j
  rw [getEntry_mkGrid]
  by_cases h : i < r ∧ j < c
  · simpa [h] using hf i j
  · simp [h]

theorem gridNonneg_transposeG {g : List (List ℚ)} (hg : GridNonneg g) :
    GridNonneg (transposeG g) :=
  gridNonneg_mkGrid (fun i j => hg j i)

theorem gridNonneg_histogram2d (xs ys xedges yedges : List ℚ) :
    GridNonneg (histogram2d xs ys xedges yedges) :=
  gridNonneg_mkGrid (fun _ _ => Nat.cast_nonneg _)

theorem gridNonneg_correlateAxis0 {w : List ℚ} (hw : ∀ x ∈ w, 0 ≤ x)
    {g : List (List ℚ)} (hg : GridNonneg g) : GridNonneg (correlateAxis0 w g) := by
  apply gridNonneg_mkGrid
  intro i j
  apply List.sum_nonneg
  intro x hx
  obtain ⟨k, _, rfl⟩ := List.mem_map.mp hx
  exact mul_nonneg (getD_nonneg hw k) (hg _ _)

theorem gridNonneg_correlateAxis1 {w : List ℚ} (hw : ∀ x ∈ w, 0 ≤ x)
    {g : List (List ℚ)} (hg : GridNonneg g) : GridNonneg (correlateAxis1 w g) := by
  apply gridNonneg_mkGrid
  intro i j
  apply List.sum_nonneg
  intro x hx
  obtain ⟨k, _, rfl⟩ := List.mem_map.mp hx
  exact mul_nonneg (getD_nonneg hw k) (hg _ _)

theorem reflectIndex_self {n i : ℕ} (h : i < n) : reflectIndex n (i : ℤ) = i := by
  unfold reflectIndex
  have hn : n ≠ 0 := by omega
  rw [if_neg hn]
  have h2n : (i : ℤ) < 2 * n := by
    have : (i : ℤ) < n := by exact_mod_cast h
    have hn' : (0 : ℤ) ≤ n := by positivity
    omega
  have hmod : (i : ℤ).emod (2 * n) = i := by
    rw [show ((2 : ℤ) * n) = ((2 * n : ℕ) : ℤ) by push_cast; ring] at h2n ⊢
    exact Int.emod_eq_of_lt (by positivity) h2n
  simp only [hmod, Int.toNat_natCast]
  rw [if_pos h]

/-- A single positive term bounds a sum of nonnegative terms from below. -/
theorem sum_pos_of_mem {l : List ℚ} (hnn : ∀ x ∈ l, 0 ≤ x) {x : ℚ}
    (hx : x ∈ l) (hpos : 0 < x) : 0 < l.sum :=
  lt_of_lt_of_le hpos (List.single_le_sum hnn x hx)

theorem correlateAxis0_pos {w : List ℚ} (hwne : w ≠ []) (hwpos : ∀ x ∈ w, 0 < x)
    {g : List (List ℚ)} (hg : GridNonneg g) {i j : ℕ}
    (hi : i < g.length) (hj : j < rowLen g) (hpos : 0 < getEntry g i j) :
    0 < getEntry (correlateAxis0 w g) i j := by
  have hwlen : 0 < w.length := List.length_pos.mpr hwne
  have hr : w.length / 2 < w.length := Nat.div_lt_self hwlen (by omega)
  unfold correlateAxis0
  rw [getEntry_mkGrid, if_pos ⟨hi, hj⟩]
  apply sum_pos_of_mem
  · intro x hx
    obtain ⟨k, _, rfl⟩ := List.mem_map.mp hx
    exact mul_nonneg (getD_nonneg (fun y hy => le_of_lt (hwpos y hy)) k) (hg _ _)
  · exact List.mem_map_of_mem _ (List.mem_range.mpr hr)
  · have hcancel : ((i : ℤ) + (w.length / 2 : ℕ) - (w.length / 2 : ℕ)) = (i : ℤ) := by ring
    rw [hcancel, reflectIndex_self hi]
    apply mul_pos
    · rw [List.getD_eq_getElem?_getD, List.getElem?_eq_getElem hr]
      exact hwpos _ (w.getElem_mem hr)
    · exact hpos

theorem correlateAxis1_pos {w : List ℚ} (hwne : w ≠ []) (hwpos : ∀ x ∈ w, 0 < x)
    {g : List (List ℚ)} (hg : GridNonneg g) {i j : ℕ}
    (hi : i < g.length) (hj : j < rowLen g) (hpos : 0 < getEntry g i j) :
    0 < getEntry (correlateAxis1 w g) i j := by
  have hwlen : 0 < w.length := List.length_pos.mpr hwne
  have hr : w.length / 2 < w.length := Nat.div_lt_self hwlen (by omega)
  unfold correlateAxis1
  rw [getEntry_mkGrid, if_pos ⟨hi, hj⟩]
  apply sum_pos_of_mem
  · intro x hx
    obtain ⟨k, _, rfl⟩ := List.mem_map.mp hx
    exact mul_nonneg (getD_nonneg (fun y hy => le_of_lt (hwpos y hy)) k) (hg _ _)
  · exact List.mem_map_of_mem _ (List.mem_range.mpr hr)
  · have hcancel : ((j : ℤ) + (w.length / 2 : ℕ) - (w.length / 2 : ℕ)) = (j : ℤ) := by ring
    rw [hcancel, reflectIndex_self hj]
    apply mul_pos
    · rw [List.getD_eq_getElem?_getD, List.getElem?_eq_getElem hr]
      exact hwpos _ (w.getElem_mem hr)
    · exact hpos

theorem gridSum_pos {g : List (List ℚ)} (hg : GridNonneg g) {i j : ℕ}
    (hi : i < g.length) (hpos : 0 < getEntry g i j) : 0 < gridSum g := by
  rw [getEntry_eq_of_lt hi] at hpos
  have hj : j < g[i].length := by
    by_contra hcon
    rw [List.getD_eq_getElem?_getD,
      List.getElem?_eq_none (Nat.le_of_not_lt hcon)] at hpos
    exact absurd hpos (lt_irrefl 0)
  rw [List.getD_eq_getElem?_getD, List.getElem?_eq_getElem hj] at hpos
  have hrow : ∀ x ∈ g[i], 0 ≤ x :=
    gridNonneg_iff_rows hg g[i] (g.getElem_mem hi)
  have h1 : 0 < g[i].sum := sum_pos_of_mem hrow (g[i].getElem_mem hj) hpos
  apply sum_pos_of_mem
  · intro x hx
    obtain ⟨row, hrowm, rfl⟩ := List.mem_map.mp hx
    exact List.sum_nonneg (gridNonneg_iff_rows hg row hrowm)
  · exact List.mem_map_of_mem _ (g.getElem_mem hi)
  · exact h1

/-- Column sums and row sums of a rectangular grid both total `gridSum`. -/
theorem sumAxis0_sum {g : List (List ℚ)} (hrect : RectGrid g) :
    (sumAxis0 g).sum = gridSum g := by
  rw [gridSum_eq_double hrect]
  exact (sum_range_swap g.length (rowLen g) (fun i j => getEntry g i j)).symm

theorem sumAxis1_sum {g : List (List ℚ)} (hrect : RectGrid g) :
    (sumAxis1 g).sum = gridSum g := (gridSum_eq_double hrect).symm

theorem sumAxis0_length (g : List (List ℚ)) : (sumAxis0 g).length = rowLen g := by
  simp [sumAxis0]

theorem sumAxis1_length (g : List (List ℚ)) : (sumAxis1 g).length = g.length := by
  simp [sumAxis1]

theorem sumAxis0_nonneg {g : List (List ℚ)} (hg : GridNonneg g) :
    ∀ x ∈ sumAxis0 g, 0 ≤ x := by
  intro x hx
  obtain ⟨j, _, rfl⟩ := List.mem_map.mp hx
  apply List.sum_nonneg
  intro y hy
  obtain ⟨i, _, rfl⟩ := List.mem_map.mp hy
  exact hg i j

theorem sumAxis1_nonneg {g : List (List ℚ)} (hg : GridNonneg g) :
    ∀ x ∈ sumAxis1 g, 0 ≤ x := by
  intro x hx
  obtain ⟨i, _, rfl⟩ := List.mem_map.mp hx
  apply List.sum_nonneg
  intro y hy
  obtain ⟨j, _, rfl⟩ := List.mem_map.mp hy
  exact hg i j

theorem zip_fst_snd {α β : Type} (l : List (α × β)) :
    (l.map Prod.fst).zip (l.map Prod.snd) = l := by
  rw [List.zip_map']
  simp

theorem histogram2d_pos_entry {xs ys xe ye : List ℚ} {x y : ℚ}
    (hmem : (x, y) ∈ xs.zip ys)
    {i j : ℕ} (hix : binIndex xe x = some i) (hjy : binIndex ye y = some j)
    (hi : i < xe.length - 1) (hj : j < ye.length - 1) :
    0 < getEntry (histogram2d xs ys xe ye) i j := by
  unfold histogram2d
  rw [getEntry_mkGrid, if_pos ⟨hi, hj⟩]
  have hmf : (x, y) ∈ (xs.zip ys).filter
      (fun q => binIndex xe q.1 == some i && binIndex ye q.2 == some j) := by
    apply List.mem_filter.mpr
    refine ⟨hmem, ?_⟩
    simp [hix, hjy]
  have hlen : 0 < ((xs.zip ys).filter
      (fun q => binIndex xe q.1 == some i && binIndex ye q.2 == some j)).length :=
    List.length_pos.mpr (List.ne_nil_of_mem hmf)
  exact_mod_cast hlen

theorem binsOf_length (coords : List ℚ) : (binsOf coords).length = 100 := by
  unfold binsOf
  exact linspace_length _ _ _

theorem binsOf_facts {coords : List ℚ} {v : ℚ} (hv : v ∈ coords) :
    ∃ k, binIndex (binsOf coords) v = some k ∧ k < (binsOf coords).length - 1 := by
  have hmin := listMin_le v hv
  have hmax := le_listMax v hv
  have hlen : (binsOf coords).length = 100 := binsOf_length coords
  have hhead : (binsOf coords).head? = some (listMin coords - 1/2) :=
    linspace_head? _ _ (by norm_num)
  have hlast : (binsOf coords).getLast? = some (listMax coords + 1/2) :=
    linspace_getLast? _ _ (by norm_num)
  refine ⟨_, binIndex_some_of_bounds hhead hlast (by linarith) (by linarith), ?_⟩
  have hmr := Nat.min_le_right
    ((List.takeWhile (fun e => e ≤ v) (binsOf coords)).length - 1)
    ((binsOf coords).length - 2)
  omega

theorem binsOf_mem_bounds {coords : List ℚ} (hc : coords ≠ []) :
    ∀ x ∈ binsOf coords,
      listMin coords - 1/2 ≤ x ∧ x ≤ listMax coords + 1/2 := by
  obtain ⟨v, hv⟩ := List.exists_mem_of_ne_nil coords hc
  have hmin := listMin_le v hv
  have hmax := le_listMax v hv
  exact linspace_mem_bounds (by linarith) 100

/-- Shape, nonnegativity and total mass of the normalized smoothed grid:
for any nonempty valid-position list and positive kernel it is a
rectangular 99×99 grid of nonnegative entries summing to exactly 1. -/
theorem densitySmooth_facts {w : List ℚ} (hwne : w ≠ []) (hwpos : ∀ x ∈ w, 0 < x)
    {valid : List (ℚ × ℚ)} (hv : valid ≠ []) :
    gridSum (densitySmoothOf w valid) = 1 ∧ GridNonneg (densitySmoothOf w valid) ∧
    RectGrid (densitySmoothOf w valid) ∧
    (densitySmoothOf w valid).length = 99 ∧ rowLen (densitySmoothOf w valid) = 99 := by
  obtain ⟨q0, hq0⟩ := List.exists_mem_of_ne_nil valid hv
  obtain ⟨i0, hbin_i0, hi0lt⟩ := binsOf_facts (List.mem_map_of_mem Prod.fst hq0)
  obtain ⟨j0, hbin_j0, hj0lt⟩ := binsOf_facts (List.mem_map_of_mem Prod.snd hq0)
  have hlenLon := binsOf_length (valid.map Prod.fst)
  have hlenLat := binsOf_length (valid.map Prod.snd)
  obtain ⟨D, hD⟩ : ∃ D, histogram2d (valid.map Prod.fst) (valid.map Prod.snd)
      (binsOf (valid.map Prod.fst)) (binsOf (valid.map Prod.snd)) = D := ⟨_, rfl⟩
  have hDnn : GridNonneg D := hD ▸ gridNonneg_histogram2d _ _ _ _
  have hDlen : D.length = 99 := by
    rw [← hD]
    unfold histogram2d
    rw [mkGrid_length]
    omega
  have hDrow : rowLen D = 99 := by
    rw [← hD]
    unfold histogram2d
    rw [rowLen_mkGrid _ _ (by omega)]
    omega
  have hDpos : 0 < getEntry D i0 j0 := by
    rw [← hD]
    apply histogram2d_pos_entry (x := q0.1) (y := q0.2) _ hbin_i0 hbin_j0 (by omega) (by omega)
    rw [zip_fst_snd]
    exact hq0
  obtain ⟨T, hT⟩ : ∃ T, transposeG D = T := ⟨_, rfl⟩
  have hTnn : GridNonneg T := hT ▸ gridNonneg_transposeG hDnn
  have hTlen : T.length = 99 := by
    rw [← hT]
    unfold transposeG
    rw [mkGrid_length, hDrow]
  have hTrow : rowLen T = 99 := by
    rw [← hT]
    unfold transposeG
    rw [rowLen_mkGrid _ _ (by omega), hDlen]
  have hTpos : 0 < getEntry T j0 i0 := by
    rw [← hT]
    unfold transposeG
    rw [getEntry_mkGrid, if_pos ⟨by omega, by omega⟩]
    exact hDpos
  obtain ⟨A, hA⟩ : ∃ A, correlateAxis0 w T = A := ⟨_, rfl⟩
  have hAnn : GridNonneg A := hA ▸
    gridNonneg_correlateAxis0 (fun x hx => le_of_lt (hwpos x hx)) hTnn
  have hAlen : A.length = 99 := by
    rw [← hA]
    unfold correlateAxis0
    rw [mkGrid_length, hTlen]
  have hArow : rowLen A = 99 := by
    rw [← hA]
    unfold correlateAxis0
    rw [rowLen_mkGrid _ _ (by omega), hTrow]
  have hApos : 0 < getEntry A j0 i0 := by
    rw [← hA]
    exact correlateAxis0_pos hwne hwpos hTnn (by omega) (by omega) hTpos
  obtain ⟨B, hB⟩ : ∃ B, correlateAxis1 w A = B := ⟨_, rfl⟩
  have hBnn : GridNonneg B := hB ▸
    gridNonneg_correlateAxis1 (fun x hx => le_of_lt (hwpos x hx)) hAnn
  have hBlen : B.length = 99 := by
    rw [← hB]
    unfold correlateAxis1
    rw [mkGrid_length, hAlen]
  have hBrow : rowLen B = 99 := by
    rw [← hB]
    unfold correlateAxis1
    rw [rowLen_mkGrid _ _ (by omega), hArow]
  have hBrect : RectGrid B := by
    rw [← hB]
    unfold correlateAxis1
    exact mkGrid_rect _ _ _
  have hBpos : 0 < getEntry B j0 i0 := by
    rw [← hB]
    exact correlateAxis1_pos hwne hwpos hAnn (by omega) (by omega) hApos
  have hBsum : 0 < gridSum B := gridSum_pos hBnn (by omega) hBpos
  have hkey : densitySmoothOf w valid = normalize B := by
    unfold densitySmoothOf gaussianFilter
    rw [hD, hT, hA, hB]
  rw [hkey]
  refine ⟨gridSum_normalize (ne_of_gt hBsum), gridNonneg_normalize hBnn,
    rect_normalize hBrect, ?_, ?_⟩
  · rw [normalize_length, hBlen]
  · rw [rowLen_normalize, hBrow]

theorem contourPart_eq {DS : List (List ℚ)} {lonC latC : List ℚ} {t50 t90 : ℚ}
    (h50 : threshold DS.flatten (1/2) = some t50)
    (h90 : threshold DS.flatten (9/10) = some t90) :
    contourPart DS lonC latC = .ok
      { density := DS, lonCenters := lonC, latCenters := latC,
        centroidLon := average lonC (sumAxis0 DS),
        centroidLat := average latC (sumAxis1 DS),
        t50 := t50, t90 := t90 } := by
  unfold contourPart
  rw [h50, h90]

/-- Full success of `_calculate_density_and_contours`: with at least one
valid final position and a positive smoothing kernel, the call returns a
result whose normalized grid sums to exactly 1 and whose centroid lies
within the padded bounding box used to construct the grid. -/
theorem calc_ok {w : List ℚ} (finals : List (Option ℚ × Option ℚ))
    (hval : validFinals finals ≠ []) (hwne : w ≠ []) (hwpos : ∀ x ∈ w, 0 < x) :
    ∃ t50 t90,
      calculateDensityAndContours w finals = .ok
        { density := densitySmoothOf w (validFinals finals),
          lonCenters := centers (binsOf ((validFinals finals).map Prod.fst)),
          latCenters := centers (binsOf ((validFinals finals).map Prod.snd)),
          centroidLon := average (centers (binsOf ((validFinals finals).map Prod.fst)))
            (sumAxis0 (densitySmoothOf w (validFinals finals))),
          centroidLat := average (centers (binsOf ((validFinals finals).map Prod.snd)))
            (sumAxis1 (densitySmoothOf w (validFinals finals))),
          t50 := t50, t90 := t90 } ∧
      gridSum (densitySmoothOf w (validFinals finals)) = 1 ∧
      listMin ((validFinals finals).map Prod.fst) - 1/2 ≤
        average (centers (binsOf ((validFinals finals).map Prod.fst)))
          (sumAxis0 (densitySmoothOf w (validFinals finals))) ∧
      average (centers (binsOf ((validFinals finals).map Prod.fst)))
          (sumAxis0 (densitySmoothOf w (validFinals finals))) ≤
        listMax ((validFinals finals).map Prod.fst) + 1/2 ∧
      listMin ((validFinals finals).map Prod.snd) - 1/2 ≤
        average (centers (binsOf ((validFinals finals).map Prod.snd)))
          (sumAxis1 (densitySmoothOf w (validFinals finals))) ∧
      average (centers (binsOf ((validFinals finals).map Prod.snd)))
          (sumAxis1 (densitySmoothOf w (validFinals finals))) ≤
        listMax ((validFinals finals).map Prod.snd) + 1/2 := by
  obtain ⟨hsum1, hnn, hrect, hlen, hrow⟩ := densitySmooth_facts hwne hwpos hval
  have hflat_nn : ∀ v ∈ (densitySmoothOf w (validFinals finals)).flatten, 0 ≤ v :=
    flatten_nonneg hnn
  have hflat_sum : (densitySmoothOf w (validFinals finals)).flatten.sum = 1 := by
    rw [flatten_sum, hsum1]
  obtain ⟨t50, h50, _, _, _⟩ :=
    threshold_spec hflat_nn (by norm_num : (0:ℚ) < 1/2) (by rw [hflat_sum]; norm_num)
  obtain ⟨t90, h90, _, _, _⟩ :=
    threshold_spec hflat_nn (by norm_num : (0:ℚ) < 9/10) (by rw [hflat_sum]; norm_num)
  have hlonne : (validFinals finals).map Prod.fst ≠ [] := by
    simpa using hval
  have hlatne : (validFinals finals).map Prod.snd ≠ [] := by
    simpa using hval
  have hcentersLon_len :
      (centers (binsOf ((validFinals finals).map Prod.fst))).length = 99 := by
    rw [centers_length, binsOf_length]
  have hcentersLat_len :
      (centers (binsOf ((validFinals finals).map Prod.snd))).length = 99 := by
    rw [centers_length, binsOf_length]
  have hwsLon_len : (sumAxis0 (densitySmoothOf w (validFinals finals))).length = 99 := by
    rw [sumAxis0_length, hrow]
  have hwsLat_len : (sumAxis1 (densitySmoothOf w (validFinals finals))).length = 99 := by
    rw [sumAxis1_length, hlen]
  have hwsLon_sum : (sumAxis0 (densitySmoothOf w (validFinals finals))).sum = 1 := by
    rw [sumAxis0_sum hrect, hsum1]
  have hwsLat_sum : (sumAxis1 (densitySmoothOf w (validFinals finals))).sum = 1 := by
    rw [sumAxis1_sum hrect, hsum1]
  have hboundsLon := centers_mem_bounds (binsOf_mem_bounds hlonne)
  have hboundsLat := centers_mem_bounds (binsOf_mem_bounds hlatne)
  have havgLon := average_bounds (hcentersLon_len.trans hwsLon_len.symm)
    (sumAxis0_nonneg hnn) (by rw [hwsLon_sum]; norm_num)
    (fun v hv => (hboundsLon v hv).1) (fun v hv => (hboundsLon v hv).2)
  have havgLat := average_bounds (hcentersLat_len.trans hwsLat_len.symm)
    (sumAxis1_nonneg hnn) (by rw [hwsLat_sum]; norm_num)
    (fun v hv => (hboundsLat v hv).1) (fun v hv => (hboundsLat v hv).2)
  refine ⟨t50, t90, ?_, hsum1, havgLon.1, havgLon.2, havgLat.1, havgLat.2⟩
  have hstep : calculateDensityAndContours w finals =
      contourPart (densitySmoothOf w (validFinals finals))
        (centers (binsOf ((validFinals finals).map Prod.fst)))
        (centers (binsOf ((validFinals finals).map Prod.snd))) := by
    unfold calculateDensityAndContours
    exact if_neg (by simpa using hlonne)
  rw [hstep]
  exact contourPart_eq h50 h90

/-- Claim C6: for every set of final particle positions containing at
least one valid (non-NaN) position, and any positive smoothing kernel, the
density grid built by histogramming, Gaussian smoothing and normalization
sums to exactly 1 (the float code reaches 1 within epsilon), and the
density-weighted centroid lies within the padded bounding box
`[min - 0.5, max + 0.5]` used to construct the grid, on each axis. -/
theorem C6_density_sums_to_one_and_centroid_in_bbox (w : List ℚ)
    (finals : List (Option ℚ × Option ℚ))
    (hval : validFinals finals ≠ []) (hwne : w ≠ []) (hwpos : ∀ x ∈ w, 0 < x) :
    ∃ t50 t90,
      calculateDensityAndContours w finals = .ok
        { density := densitySmoothOf w (validFinals finals),
          lonCenters := centers (binsOf ((validFinals finals).map Prod.fst)),
          latCenters := centers (binsOf ((validFinals finals).map Prod.snd)),
          centroidLon := average (centers (binsOf ((validFinals finals).map Prod.fst)))
            (sumAxis0 (densitySmoothOf w (validFinals finals))),
          centroidLat := average (centers (binsOf ((validFinals finals).map Prod.snd)))
            (sumAxis1 (densitySmoothOf w (validFinals finals))),
          t50 := t50, t90 := t90 } ∧
      gridSum (densitySmoothOf w (validFinals finals)) = 1 ∧
      listMin ((validFinals finals).map Prod.fst) - 1/2 ≤
        average (centers (binsOf ((validFinals finals).map Prod.fst)))
          (sumAxis0 (densitySmoothOf w (validFinals finals))) ∧
      average (centers (binsOf ((validFinals finals).map Prod.fst)))
          (sumAxis0 (densitySmoothOf w (validFinals finals))) ≤
        listMax ((validFinals finals).map Prod.fst) + 1/2 ∧
      listMin ((validFinals finals).map Prod.snd) - 1/2 ≤
        average (centers (binsOf ((validFinals finals).map Prod.snd)))
          (sumAxis1 (densitySmoothOf w (validFinals finals))) ∧
      average (centers (binsOf ((validFinals finals).map Prod.snd)))
          (sumAxis1 (densitySmoothOf w (validFinals finals))) ≤
        listMax ((validFinals finals).map Prod.snd) + 1/2 :=
  calc_ok finals hval hwne hwpos

/-- Concrete dataset (one valid particle at the origin) for the C6 witness. -/
def c6Finals : List (Option ℚ × Option ℚ) := [(some 0, some 0)]

/-- Concrete positive kernel for the C6 witness. -/
def c6Kernel : List ℚ := [1]

/-- Witness for `C6_density_sums_to_one_and_centroid_in_bbox` at one valid
particle at the origin and the singleton kernel `[1]`. -/
theorem C6_witness :
    (validFinals c6Finals ≠ [] ∧ c6Kernel ≠ [] ∧ (∀ x ∈ c6Kernel, 0 < x)) ∧
    (∃ t50 t90,
      calculateDensityAndContours c6Kernel c6Finals = .ok
        { density := densitySmoothOf c6Kernel (validFinals c6Finals),
          lonCenters := centers (binsOf ((validFinals c6Finals).map Prod.fst)),
          latCenters := centers (binsOf ((validFinals c6Finals).map Prod.snd)),
          centroidLon := average (centers (binsOf ((validFinals c6Finals).map Prod.fst)))
            (sumAxis0 (densitySmoothOf c6Kernel (validFinals c6Finals))),
          centroidLat := average (centers (binsOf ((validFinals c6Finals).map Prod.snd)))
            (sumAxis1 (densitySmoothOf c6Kernel (validFinals c6Finals))),
          t50 := t50, t90 := t90 } ∧
      gridSum (densitySmoothOf c6Kernel (validFinals c6Finals)) = 1 ∧
      listMin ((validFinals c6Finals).map Prod.fst) - 1/2 ≤
        average (centers (binsOf ((validFinals c6Finals).map Prod.fst)))
          (sumAxis0 (densitySmoothOf c6Kernel (validFinals c6Finals))) ∧
      average (centers (binsOf ((validFinals c6Finals).map Prod.fst)))
          (sumAxis0 (densitySmoothOf c6Kernel (validFinals c6Finals))) ≤
        listMax ((validFinals c6Finals).map Prod.fst) + 1/2 ∧
      listMin ((validFinals c6Finals).map Prod.snd) - 1/2 ≤
        average (centers (binsOf ((validFinals c6Finals).map Prod.snd)))
          (sumAxis1 (densitySmoothOf c6Kernel (validFinals c6Finals))) ∧
      average (centers (binsOf ((validFinals c6Finals).map Prod.snd)))
          (sumAxis1 (densitySmoothOf c6Kernel (validFinals c6Finals))) ≤
        listMax ((validFinals c6Finals).map Prod.snd) + 1/2) :=
  ⟨⟨by decide, by decide, by norm_num [c6Kernel]⟩,
    C6_density_sums_to_one_and_centroid_in_bbox c6Kernel c6Finals
      (by decide) (by decide) (by norm_num [c6Kernel])⟩

/-! ## Mission pipeline state machine

Shallow embedding of worker.py (`DriftWorker`) and the state effects of
processor.py (`ResultsProcessor.process_results`).  The Mission Store, the
Artifact Store and the results queue are modelled as reliable state; the
simulation engine and the S3 upload are oracles whose success or raised
exception is an input (`SimOutcome`, `UploadOutcome`). -/

inductive Status
  | queued
  | processing
  | completed
  | failed
deriving DecidableEq

/-- A `mission_results` row: the worker's INSERT fills `netcdf_path` and
leaves the centroid columns NULL; the processor's UPDATE fills them. -/
structure ResultRow where
  netcdfPath : String
  centroidLat : Option ℚ
  centroidLon : Option ℚ
deriving DecidableEq

/-- The Mission Store state of one mission: its `missions` row (status,
error_message) and its `mission_results` rows. -/
structure MissionState where
  status : Status
  errorMessage : Option String
  resultRows : List ResultRow
deriving DecidableEq

/-- A freshly created mission: `queued`, no error, no result rows. -/
def freshMission : MissionState := ⟨.queued, none, []⟩

/-- A ResultsJob message `{"mission_id": ..., "netcdf_path": ...}`. -/
structure ResultsJob where
  missionId : String
  netcdfPath : String
deriving DecidableEq

/-- Global state: the Mission Store, raw and derived artifacts written to
the Artifact Store (in write order), the results queue, and a count of
Simulation Engine invocations. -/
structure SystemState where
  missions : String → MissionState
  rawArtifacts : List String
  resultsQueue : List ResultsJob
  simInvocations : ℕ
  derivedArtifacts : List String

def initialState : SystemState := ⟨fun _ => freshMission, [], [], 0, []⟩

/-- Python truthiness of an optional string: `None` and `""` are falsy —
the branch conditions `if result_location:` / `elif error_message:` of
`_update_mission_status`. -/
def truthy : Option String → Bool
  | none => false
  | some s => s ≠ ""

/-- worker.py lines 140–191, `_update_mission_status`: with a truthy
`result_location` it sets the status and INSERTs a `mission_results` row
(netcdf_path only, centroid NULL); with a truthy `error_message` it sets
the status and the error message; otherwise it only sets the status. -/
def updateMissionStatus (m : MissionState) (status : Status)
    (errorMessage : Option String) (resultLocation : Option String) : MissionState :=
  if truthy resultLocation then
    { m with
      status := status
      resultRows := m.resultRows ++ [⟨resultLocation.getD "", none, none⟩] }
  else if truthy errorMessage then
    { m with status := status, errorMessage := errorMessage }
  else
    { m with status := status }

def setMission (st : SystemState) (mid : String) (m : MissionState) : SystemState :=
  { st with missions := fun id => if id = mid then m else st.missions id }

/-- Outcome of `_run_opendrift_simulation`: normal return, or an exception
carrying `str(e)`. -/
inductive SimOutcome
  | success
  | failure (msg : String)
deriving DecidableEq

/-- Outcome of `_upload_results`: the returned S3 path, or an exception. -/
inductive UploadOutcome
  | ok
  | err (msg : String)
deriving DecidableEq

/-- The artifact key of `_upload_results` (worker.py lines 298–319):
`s3://driftline-results/{mission_id}/raw/particles.nc`. -/
def rawKey (mid : String) : String :=
  "s3://" ++ "driftline-results" ++ "/" ++ mid ++ "/raw/particles.nc"

/-- worker.py lines 421–496, `process_job`: unconditionally mark
`processing`, download forcing data (failures there fall back and never
abort), run the simulation; on success upload the raw artifact, mark
`completed` (inserting the result row), then enqueue the ResultsJob; any
exception from the simulation or the upload is caught and mapped to
`mark_failed` with `str(e)`.  Returns the new state and the job's
terminal status. -/
def process_job (mid : String) (sim : SimOutcome) (upload : UploadOutcome)
    (st : SystemState) : SystemState × Status :=
  let st1 := setMission st mid
    (updateMissionStatus (st.missions mid) .processing none none)
  let st2 := { st1 with simInvocations := st1.simInvocations + 1 }
  match sim with
  | .failure msg =>
      (setMission st2 mid
        (updateMissionStatus (st2.missions mid) .failed (some msg) none), .failed)
  | .success =>
      match upload with
      | .err msg =>
          (setMission st2 mid
            (updateMissionStatus (st2.missions mid) .failed (some msg) none), .failed)
      | .ok =>
          let st3 := { st2 with rawArtifacts := st2.rawArtifacts ++ [rawKey mid] }
          let st4 := setMission st3 mid
            (updateMissionStatus (st3.missions mid) .completed none (some (rawKey mid)))
          ({ st4 with resultsQueue := st4.resultsQueue ++ [⟨mid, rawKey mid⟩] },
            .completed)

/-- One delivery from the job queue: a payload that fails to parse, or a
MissionJob together with the oracles' outcomes for its processing. -/
inductive QueueItem
  | malformed (raw : String)
  | job (mid : String) (sim : SimOutcome) (upload : UploadOutcome)

/-- One iteration of the worker poll loop (worker.py lines 498–536): a
malformed payload is logged and dropped; a job is processed with every
exception caught, so the loop state function is total. -/
def workerStep (st : SystemState) (item : QueueItem) : SystemState :=
  match item with
  | .malformed _ => st
  | .job mid sim upload => (process_job mid sim upload st).1

/-- The worker loop over a finite delivery schedule. -/
def runWorker (st : SystemState) (items : List QueueItem) : SystemState :=
  items.foldl workerStep st

/-- processor.py lines 361–501, `process_results`: download and open the
raw dataset, compute the density pipeline; when it yields no valid
particles the `ValueError("Failed to calculate density - no valid
particles")` is raised BEFORE any upload or database write, so the state
is unchanged; on success the three derived artifacts are uploaded and the
`mission_results` rows of the mission are UPDATEd with the centroid.  The
`missions` row (status, error_message) is never touched by the processor.
Returns the new state and the raised error, if any. -/
def process_results (w : List ℚ) (mid : String) (ds : Dataset)
    (st : SystemState) : SystemState × Option String :=
  match calculateDensityAndContours w (finalPositions ds) with
  | .noValid => (st, some "Failed to calculate density - no valid particles")
  | .indexError => (st, some "IndexError")
  | .ok res =>
      let st1 := { st with derivedArtifacts := st.derivedArtifacts ++
        [mid ++ "/trajectories.geojson", mid ++ "/heatmap.png", mid ++ "/report.pdf"] }
      let m := st1.missions mid
      (setMission st1 mid
        { m with resultRows := m.resultRows.map (fun r =>
            { r with
              centroidLat := some res.centroidLat
              centroidLon := some res.centroidLon }) }, none)

theorem rawKey_ne_empty (mid : String) : rawKey mid ≠ "" := by
  intro hcon
  have h := congrArg String.length hcon
  simp [rawKey, String.length_append] at h
  have h5 : "s3://driftline-results/".length = 23 := by decide
  rw [h5] at h
  exact absurd h.1.1 (by decide)

/-! ## Claim C9 -/

/-- Claim C9: in `process_job` the ResultsJob for a mission is enqueued
only after the raw-artifact upload returned without error (the upload
call precedes `mark_completed` and the enqueue in program order, and the
`except` branch skips both): when the simulation and the upload succeed,
exactly one ResultsJob referencing the uploaded key is appended and that
key is present among the written raw artifacts; when the simulation or
the upload raises, the results queue and the raw artifacts are unchanged
— no ResultsJob for the mission is ever enqueued by that execution. -/
theorem C9_enqueue_only_after_durable_upload (mid : String) (sim : SimOutcome)
    (upload : UploadOutcome) (st : SystemState) :
    (sim = .success ∧ upload = .ok →
      (process_job mid sim upload st).1.resultsQueue
          = st.resultsQueue ++ [⟨mid, rawKey mid⟩] ∧
      rawKey mid ∈ (process_job mid sim upload st).1.rawArtifacts) ∧
    (sim ≠ .success ∨ upload ≠ .ok →
      (process_job mid sim upload st).1.resultsQueue = st.resultsQueue ∧
      (process_job mid sim upload st).1.rawArtifacts = st.rawArtifacts) := by
  cases sim with
  | failure msg =>
      refine ⟨fun h => absurd h.1 (by simp), fun _ => ?_⟩
      simp [process_job, setMission]
  | success =>
      cases upload with
      | err msg =>
          refine ⟨fun h => absurd h.2 (by simp), fun _ => ?_⟩
          simp [process_job, setMission]
      | ok =>
          refine ⟨fun _ => ⟨?_, ?_⟩, fun h => ?_⟩
          · simp [process_job, setMission]
          · simp [process_job, setMission]
          · rcases h with h | h <;> exact absurd rfl h

/-- Witness for `C9_enqueue_only_after_durable_upload`: the successful
path at a concrete mission. -/
theorem C9_witness :
    (process_job "m" .success .ok initialState).1.resultsQueue
        = initialState.resultsQueue ++ [⟨"m", rawKey "m"⟩] ∧
    rawKey "m" ∈ (process_job "m" .success .ok initialState).1.rawArtifacts :=
  (C9_enqueue_only_after_durable_upload "m" .success .ok initialState).1 ⟨rfl, rfl⟩

/-! ## Claim C8 -/

/-- Claim C8, as stated, is false on one edge: an exception whose message
is the empty string (`str(e) == ""`, e.g. `ValueError()`) is caught and
the mission is marked `failed`, but `_update_mission_status` drops the
message at the falsy check `elif error_message:` — `error_message`
remains NULL instead of holding the message verbatim. -/
theorem C8_counterexample :
    ((workerStep initialState (.job "m" (.failure "") .ok)).missions "m").status
        = .failed ∧
    ((workerStep initialState (.job "m" (.failure "") .ok)).missions "m").errorMessage
        = none ∧
    ((workerStep initialState (.job "m" (.failure "") .ok)).missions "m").errorMessage
        ≠ some "" := by
  refine ⟨by decide, by decide, by decide⟩

/-- Claim C8 (amended): any exception raised during simulation is caught
and mapped to a `failed` mission status, with the causal message preserved
verbatim as `error_message` whenever it is non-empty (an empty message
leaves `error_message` NULL); the worker does not crash — the loop is a
total function and a subsequent job for another mission still completes
normally. -/
theorem C8_sim_exception_caught_worker_continues (mid mid2 msg : String)
    (upload upload2 : UploadOutcome) (st : SystemState)
    (hmsg : msg ≠ "") (hne : mid2 ≠ mid) :
    ((runWorker st [.job mid (.failure msg) upload,
        .job mid2 .success upload2]).missions mid).status = .failed ∧
    ((runWorker st [.job mid (.failure msg) upload,
        .job mid2 .success upload2]).missions mid).errorMessage = some msg ∧
    (upload2 = .ok →
      ((runWorker st [.job mid (.failure msg) upload,
          .job mid2 .success upload2]).missions mid2).status = .completed) := by
  cases upload2 with
  | ok =>
      refine ⟨?_, ?_, fun _ => ?_⟩ <;>
        simp [runWorker, workerStep, process_job, setMission, updateMissionStatus,
          truthy, hmsg, hne, Ne.symm hne, rawKey_ne_empty]
  | err msg2 =>
      refine ⟨?_, ?_, fun hcon => by cases hcon⟩ <;>
        simp [runWorker, workerStep, process_job, setMission, updateMissionStatus,
          truthy, hmsg, hne, Ne.symm hne, rawKey_ne_empty]

/-- Witness for `C8_sim_exception_caught_worker_continues` at concrete
missions "a" and "b". -/
theorem C8_witness :
    ("boom" ≠ "" ∧ "b" ≠ "a") ∧
    (((runWorker initialState [.job "a" (.failure "boom") .ok,
        .job "b" .success .ok]).missions "a").status = .failed ∧
     ((runWorker initialState [.job "a" (.failure "boom") .ok,
        .job "b" .success .ok]).missions "a").errorMessage = some "boom" ∧
     (UploadOutcome.ok = .ok →
       ((runWorker initialState [.job "a" (.failure "boom") .ok,
          .job "b" .success .ok]).missions "b").status = .completed)) :=
  ⟨⟨by decide, by decide⟩,
    C8_sim_exception_caught_worker_continues "a" "b" "boom" .ok .ok initialState
      (by decide) (by decide)⟩

/-! ## Claim C3 -/

/-- Claim C3, as stated, is false: `process_job` performs no check of the
current mission status.  Processing the same job twice from a fresh
mission re-invokes the Simulation Engine (invocation count 2), re-writes
the raw artifact under the same key (two writes recorded), INSERTs a
second `mission_results` row, and the redelivery moves the
already-`completed` mission back to `processing` (the unconditional first
status update of `process_job`). -/
theorem C3_counterexample :
    ((workerStep initialState (.job "m" .success .ok)).missions "m").status
        = .completed ∧
    (workerStep (workerStep initialState (.job "m" .success .ok))
        (.job "m" .success .ok)).simInvocations = 2 ∧
    (workerStep (workerStep initialState (.job "m" .success .ok))
        (.job "m" .success .ok)).rawArtifacts = [rawKey "m", rawKey "m"] ∧
    ((workerStep (workerStep initialState (.job "m" .success .ok))
        (.job "m" .success .ok)).missions "m").resultRows.length = 2 ∧
    (updateMissionStatus ((workerStep initialState (.job "m" .success .ok)).missions "m")
        .processing none none).status = .processing := by
  refine ⟨by decide, by decide, by decide, by decide, by decide⟩

/-- Claim C3 (amended): redelivering a MissionJob whose mission is already
`completed` is NOT detected and is NOT a no-op: the mission is first set
back to `processing`, the Simulation Engine is re-invoked, the raw
artifact is re-uploaded under the same mission-scoped key, a duplicate
`mission_results` row is inserted, a second ResultsJob is enqueued, and
the mission ends in `completed` again. -/
theorem C3_redelivery_reruns_pipeline (mid : String) (st : SystemState)
    (h : (st.missions mid).status = .completed) :
    (updateMissionStatus (st.missions mid) .processing none none).status
        = .processing ∧
    (process_job mid .success .ok st).1.simInvocations = st.simInvocations + 1 ∧
    (process_job mid .success .ok st).1.rawArtifacts
        = st.rawArtifacts ++ [rawKey mid] ∧
    ((process_job mid .success .ok st).1.missions mid).resultRows.length
        = (st.missions mid).resultRows.length + 1 ∧
    (process_job mid .success .ok st).1.resultsQueue
        = st.resultsQueue ++ [⟨mid, rawKey mid⟩] ∧
    ((process_job mid .success .ok st).1.missions mid).status = .completed := by
  refine ⟨?_, ?_, ?_, ?_, ?_, ?_⟩ <;>
    simp [process_job, setMission, updateMissionStatus, truthy, rawKey_ne_empty]

/-- Witness for `C3_redelivery_reruns_pipeline` at a mission made
`completed` by one successful processing. -/
theorem C3_witness :
    (((workerStep initialState (.job "m" .success .ok)).missions "m").status
        = .completed) ∧
    ((updateMissionStatus
        ((workerStep initialState (.job "m" .success .ok)).missions "m")
        .processing none none).status = .processing ∧
     (process_job "m" .success .ok
        (workerStep initialState (.job "m" .success .ok))).1.simInvocations
        = (workerStep initialState (.job "m" .success .ok)).simInvocations + 1 ∧
     (process_job "m" .success .ok
        (workerStep initialState (.job "m" .success .ok))).1.rawArtifacts
        = (workerStep initialState (.job "m" .success .ok)).rawArtifacts
          ++ [rawKey "m"] ∧
     ((process_job "m" .success .ok
        (workerStep initialState (.job "m" .success .ok))).1.missions "m").resultRows.length
        = ((workerStep initialState (.job "m" .success .ok)).missions "m").resultRows.length
          + 1 ∧
     (process_job "m" .success .ok
        (workerStep initialState (.job "m" .success .ok))).1.resultsQueue
        = (workerStep initialState (.job "m" .success .ok)).resultsQueue
          ++ [⟨"m", rawKey "m"⟩] ∧
     ((process_job "m" .success .ok
        (workerStep initialState (.job "m" .success .ok))).1.missions "m").status
        = .completed) :=
  ⟨by decide,
    C3_redelivery_reruns_pipeline "m" (workerStep initialState (.job "m" .success .ok))
      (by decide)⟩

/-- Effect of `process_results` when the density pipeline succeeds: the
three derived artifacts are appended and the mission's result rows get
the centroid; the `missions` status row is untouched. -/
theorem process_results_ok {w : List ℚ} {mid : String} {ds : Dataset}
    {st : SystemState} {res : DensityResult}
    (hcalc : calculateDensityAndContours w (finalPositions ds) = .ok res) :
    process_results w mid ds st =
      ({ st with
          derivedArtifacts := st.derivedArtifacts ++
            [mid ++ "/trajectories.geojson", mid ++ "/heatmap.png",
              mid ++ "/report.pdf"]
          missions := fun id => if id = mid then
            { st.missions mid with resultRows := ((st.missions mid).resultRows.map
                (fun r => { r with
                  centroidLat := some res.centroidLat
                  centroidLon := some res.centroidLon })) }
            else st.missions id }, none) := by
  unfold process_results
  rw [hcalc]
  rfl

/-! ## Claim C2 -/

/-- Claim C2 (amended): on a TrajectoryDataset whose final positions are
all undefined (NaN), `process_results` raises the dedicated
"no valid particles" ValueError before any upload or database write: no
heatmap or GeoJSON artifact is published and the system state — in
particular the mission's status — is completely unchanged.  The mission
does NOT become `failed`: the processor never updates mission status, and
its run loop only logs the exception. -/
theorem C2_no_valid_particles_error_no_publish_status_unchanged
    (w : List ℚ) (mid : String) (ds : Dataset) (st : SystemState)
    (h : ∀ p ∈ finalPositions ds, p.1 = none ∧ p.2 = none) :
    (process_results w mid ds st).2
        = some "Failed to calculate density - no valid particles" ∧
    (process_results w mid ds st).1 = st := by
  have hv : validFinals (finalPositions ds) = [] := by
    apply List.filterMap_eq_nil_iff.mpr
    intro p hp
    obtain ⟨h1, h2⟩ := h p hp
    obtain ⟨a, b⟩ := p
    simp only at h1 h2
    rw [h1, h2]
  have hcalc : calculateDensityAndContours w (finalPositions ds) = .noValid := by
    unfold calculateDensityAndContours
    rw [hv]
    simp
  unfold process_results
  rw [hcalc]
  exact ⟨rfl, rfl⟩

/-- Concrete all-NaN one-particle dataset. -/
def c2Ds : Dataset := ⟨[[none]], [[none]]⟩

/-- Claim C2, as stated, is false on its mission-status part: with every
particle stranded, processing a completed mission's results raises the
dedicated error and publishes nothing, but the mission's status stays
`completed` — it never becomes `failed`. -/
theorem C2_counterexample :
    (process_results [(1 : ℚ)] "m" c2Ds
        (workerStep initialState (.job "m" .success .ok))).2
      = some "Failed to calculate density - no valid particles" ∧
    ((process_results [(1 : ℚ)] "m" c2Ds
        (workerStep initialState (.job "m" .success .ok))).1.missions "m").status
      = .completed ∧
    ((process_results [(1 : ℚ)] "m" c2Ds
        (workerStep initialState (.job "m" .success .ok))).1.missions "m").status
      ≠ .failed ∧
    (process_results [(1 : ℚ)] "m" c2Ds
        (workerStep initialState (.job "m" .success .ok))).1.derivedArtifacts = [] := by
  refine ⟨by decide, by decide, by decide, by decide⟩

/-- Witness for `C2_no_valid_particles_error_no_publish_status_unchanged`
at the all-NaN dataset. -/
theorem C2_witness :
    (∀ p ∈ finalPositions c2Ds, p.1 = none ∧ p.2 = none) ∧
    ((process_results [(1 : ℚ)] "m" c2Ds initialState).2
        = some "Failed to calculate density - no valid particles" ∧
     (process_results [(1 : ℚ)] "m" c2Ds initialState).1 = initialState) :=
  ⟨by decide,
    C2_no_valid_particles_error_no_publish_status_unchanged [(1 : ℚ)] "m" c2Ds
      initialState (by decide)⟩

/-! ## Claim C1 -/

/-- Claim C1 (amended): in any single `process_job` execution on a fresh
(queued) mission, the mission reaches `completed` exactly when the
simulation and the upload succeed, and then together with the insertion
of one MissionResult row holding the raw-artifact reference — its
centroid still NULL at that moment (the centroid is only filled in later
by the results processor); it reaches `failed` only via a caught failure,
with no result row inserted, and `error_message` holds the failure
message exactly when that message is non-empty; and no single execution
both inserts a result row and sets an error message. -/
theorem C1_single_execution_status_result_row_invariants
    (mid : String) (sim : SimOutcome) (upload : UploadOutcome) (st : SystemState)
    (hfresh : st.missions mid = freshMission) :
    (((process_job mid sim upload st).1.missions mid).status = .completed ↔
        sim = .success ∧ upload = .ok) ∧
    (((process_job mid sim upload st).1.missions mid).status = .completed →
        ((process_job mid sim upload st).1.missions mid).resultRows
          = [⟨rawKey mid, none, none⟩] ∧
        ((process_job mid sim upload st).1.missions mid).errorMessage = none) ∧
    (((process_job mid sim upload st).1.missions mid).status = .failed →
        ((process_job mid sim upload st).1.missions mid).resultRows = []) ∧
    (∀ msg, sim = .failure msg →
        ((process_job mid sim upload st).1.missions mid).status = .failed ∧
        ((process_job mid sim upload st).1.missions mid).errorMessage
          = (if msg = "" then none else some msg)) ∧
    ¬(((process_job mid sim upload st).1.missions mid).resultRows ≠ [] ∧
      ((process_job mid sim upload st).1.missions mid).errorMessage ≠ none) := by
  cases sim with
  | success =>
    cases upload with
    | ok =>
        simp [process_job, setMission, updateMissionStatus, truthy, hfresh,
          freshMission, rawKey_ne_empty]
    | err msg =>
        by_cases hmsg : msg = "" <;>
          simp [process_job, setMission, updateMissionStatus, truthy, hfresh,
            freshMission, hmsg]
  | failure msg =>
      by_cases hmsg : msg = "" <;>
        simp [process_job, setMission, updateMissionStatus, truthy, hfresh,
          freshMission, hmsg]

/-- Witness for `C1_single_execution_status_result_row_invariants` at a
fresh mission and a successful run. -/
theorem C1_witness :
    (initialState.missions "m" = freshMission) ∧
    ((((process_job "m" .success .ok initialState).1.missions "m").status
          = .completed ↔
        SimOutcome.success = .success ∧ UploadOutcome.ok = .ok) ∧
     (((process_job "m" .success .ok initialState).1.missions "m").status
          = .completed →
        ((process_job "m" .success .ok initialState).1.missions "m").resultRows
          = [⟨rawKey "m", none, none⟩] ∧
        ((process_job "m" .success .ok initialState).1.missions "m").errorMessage
          = none) ∧
     (((process_job "m" .success .ok initialState).1.missions "m").status
          = .failed →
        ((process_job "m" .success .ok initialState).1.missions "m").resultRows
          = []) ∧
     (∀ msg, SimOutcome.success = .failure msg →
        ((process_job "m" .success .ok initialState).1.missions "m").status
          = .failed ∧
        ((process_job "m" .success .ok initialState).1.missions "m").errorMessage
          = (if msg = "" then none else some msg)) ∧
     ¬(((process_job "m" .success .ok initialState).1.missions "m").resultRows
          ≠ [] ∧
       ((process_job "m" .success .ok initialState).1.missions "m").errorMessage
          ≠ none)) :=
  ⟨rfl, C1_single_execution_status_result_row_invariants "m" .success .ok
    initialState rfl⟩

/-- Concrete one-valid-particle dataset for the C1 trace. -/
def c1Ds : Dataset := ⟨[[some 0]], [[some 0]]⟩

/-- Claim C1, as stated, is false on three points, each exhibited on a
concrete trace: (1) after one successful `process_job` the mission is
`completed` while its only MissionResult row still has a NULL centroid
(the centroid is only written later by the results processor); (2) a
simulation failure whose exception message is empty marks the mission
`failed` with `error_message` still NULL; (3) on the trace
success → results processed → redelivered job fails, the mission ends
holding both a non-null centroid in its result row and a non-null
`error_message`. -/
theorem C1_counterexample :
    (((workerStep initialState (.job "m" .success .ok)).missions "m").status
        = .completed ∧
     ((workerStep initialState (.job "m" .success .ok)).missions "m").resultRows.map
        ResultRow.centroidLat = [none]) ∧
    (((workerStep initialState (.job "m" (.failure "") .ok)).missions "m").status
        = .failed ∧
     ((workerStep initialState (.job "m" (.failure "") .ok)).missions "m").errorMessage
        = none) ∧
    ((∃ r ∈ ((workerStep (process_results [(1 : ℚ)] "m" c1Ds
          (workerStep initialState (.job "m" .success .ok))).1
          (.job "m" (.failure "boom") .ok)).missions "m").resultRows,
        r.centroidLat ≠ none) ∧
     ((workerStep (process_results [(1 : ℚ)] "m" c1Ds
          (workerStep initialState (.job "m" .success .ok))).1
          (.job "m" (.failure "boom") .ok)).missions "m").errorMessage
        = some "boom") := by
  refine ⟨⟨by decide, by decide⟩, ⟨by decide, by decide⟩, ?_⟩
  obtain ⟨t50, t90, hcalc, _⟩ := calc_ok (w := [(1 : ℚ)]) (finalPositions c1Ds)
    (by decide) (by decide) (by norm_num)
  rw [process_results_ok hcalc]
  constructor
  · simp [workerStep, process_job, setMission, updateMissionStatus, truthy,
      rawKey_ne_empty, initialState, freshMission]
  · simp [workerStep, process_job, setMission, updateMissionStatus, truthy,
      rawKey_ne_empty, initialState, freshMission]

end Driftline
